import Mathlib

/-!
The package yawhg: a structured, leveled logger.

A shallow embedding of the Go package `yawhg` (files `yawhg.go`, `yawhg_fields.go`,
`yawhg_levels.go`, `yawhg_context.go`, `yawhg_middleware.go`, `yawhg_debug.go`,
`yawhg_info.go`, `yawhg_error.go`) and the properties proved about it.

Modelling conventions.

* A Go `string` that holds text is a Lean `String`, the list of its runes. Go stores the
  UTF-8 encoding of the runes, and `len(s)` and `s[:n]` count its bytes: they are `len`
  and `sliceTo`, over `runeBytes`. The strings handed to the functions are texts; a slice
  that ends inside a rune is no text and is kept as a `GoString`.
* A Go map is a reference: a `Fields` value is `none` (the nil map) or `some r`, the
  address of a cell of the store kept in `World`. Writing through a nil map panics, reading
  it yields nothing. A `*Fields` is modelled by the map it points to.
* Package variables (`Destination`, `appVersion`, `appLogLevel`, `fieldsPool`), the store,
  the writes issued on writers and the text printed with `fmt.Printf` form the `World`;
  functions pass it explicitly and return `Except Panic` where Go may panic.
* `time.Now()`, `uuid.NewV4()`, `fmt.Sprint` and `fmt.Sprintf` are inputs of the functions
  that call them.
-/

namespace Yawhg

/-! ## Levels (`yawhg_levels.go`) -/

/-- Severity level, `type Level int32`. -/
abbrev Level := Int

/-- Debug severity, the first `iota`. -/
def DebugLevel : Level := 0
/-- Info severity. -/
def InfoLevel : Level := 1
/-- Error severity. -/
def ErrorLevel : Level := 2

/-- Go `Level.String`: the switch over the three constants, then `"unknown"`. -/
def Level.String (level : Level) : String :=
  if level = DebugLevel then "debug"
  else if level = ErrorLevel then "error"
  else if level = InfoLevel then "info"
  else "unknown"

/-- Go `unicode.ToLower` as far as ASCII results are concerned: the runes whose lower case
is an ASCII letter are `A`..`Z`, U+0130 (to `i`) and U+212A (to `k`). Every other cased rune
lowers to a non-ASCII rune and is left in place here, which does not change any comparison
of a lowered string with an ASCII word. -/
def toLowerRune (c : Char) : Char :=
  if 65 ≤ c.toNat ∧ c.toNat ≤ 90 then Char.ofNat (c.toNat + 32)
  else if c.toNat = 304 then 'i'
  else if c.toNat = 8490 then 'k'
  else c

/-- Go `strings.ToLower`. -/
def ToLower (s : String) : String := String.mk (s.data.map toLowerRune)

/-- Error values built by the package (`fmt.Errorf`) or met by `fire`. The text of an error
is kept as its constructor and arguments. -/
inductive Err
  /-- The error `not a valid Level: %q` of `parseLevel`, with its argument. -/
  | notValidLevel (lvl : String)
  /-- The error `severity level not set for %s` of `checkSeverityLevel`. -/
  | severityNotSet
  /-- The error `encoding/json` returns for a value it cannot encode. -/
  | jsonUnsupported
  /-- The error a failing writer returns from `Write`. -/
  | writeFailed
  deriving DecidableEq, Repr

/-- Go `parseLevel`: returns the pair `(Level, error)`; on failure the level is the zero
value of `Level`. -/
def parseLevel (lvl : String) : Level × Option Err :=
  let l := ToLower lvl
  if l = "info" then (InfoLevel, none)
  else if l = "error" then (ErrorLevel, none)
  else if l = "debug" then (DebugLevel, none)
  else (0, some (Err.notValidLevel lvl))

/-! ## Values, maps and the world -/

/-- Dynamic values stored in a `Fields` map (`interface{}`): strings (the only values that
pass the assertion `.(string)`), further JSON-encodable values, and `chan`, a value
`encoding/json` refuses to encode. -/
inductive Value
  | str (s : String)
  | int (n : Int)
  | bool (b : Bool)
  | null
  | chan (id : Nat)
  deriving DecidableEq, Repr

/-- Whether `encoding/json` can encode the value. -/
def Value.encodable : Value → Bool
  | .chan _ => false
  | _ => true

/-- Contents of one map: an association list with at most one pair per key. Map read
`m[k]` is `m.lookup k`, map write `m[k] = v` is `m.insert k v`, the built-in `delete(m, k)`
is `m.erase k`, and a `range` loop visits `m.entries`. -/
abbrev Entries := AList (fun _ : String => Value)

/-- Whether every value of the map can be JSON-encoded. -/
def Entries.encodable (m : Entries) : Bool :=
  m.entries.all (fun e => e.2.encodable)

/-- An `io.Writer` that can be the destination. -/
inductive Writer
  /-- The writer `os.Stdout`. -/
  | stdout
  /-- The writer `ioutil.Discard`. -/
  | discard
  /-- A writer supplied by the caller; `fails` tells whether its `Write` returns an error. -/
  | custom (id : Nat) (fails : Bool)
  deriving DecidableEq, Repr

/-- Whether `Write` on the writer returns an error. -/
def Writer.fails : Writer → Bool
  | .custom _ b => b
  | _ => false

/-- A line printed with `fmt.Printf` (the side channel). -/
inductive Diag
  /-- The line `checking log message severity level: %v`. -/
  | checkingSeverity (e : Err)
  /-- The line `logging through yawhg: %s`. -/
  | logging (e : Err)
  deriving DecidableEq, Repr

/-- Run-time panics of the modelled code. -/
inductive Panic
  /-- Go: assignment to entry in nil map. -/
  | nilMapAssign
  deriving DecidableEq, Repr

/-- A `Fields` value: `none` is the nil map, `some r` refers to cell `r` of the store. -/
abbrev Fields := Option Nat

/-- The package state and the store of maps. -/
structure World where
  /-- Contents of the map at each address. -/
  cell : Nat → Entries
  /-- First address not yet allocated. -/
  next : Nat
  /-- The package variable `Destination`. -/
  Destination : Writer
  /-- The package variable `appVersion`. -/
  appVersion : String
  /-- The package variable `appLogLevel`. -/
  appLogLevel : Level
  /-- The instances held by `fieldsPool`. -/
  fieldsPool : List Nat
  /-- The `Write` calls issued by `fire`, in order: the writer and the encoded map. -/
  written : List (Writer × Entries)
  /-- The lines printed with `fmt.Printf`, in order. -/
  printed : List Diag

/-- Contents of the map a `Fields` value refers to (nothing for the nil map). -/
def contents (w : World) (f : Fields) : Entries :=
  match f with
  | none => ∅
  | some r => w.cell r

/-- Map read `f[k]` through a `Fields` value. -/
def mapIndex (w : World) (f : Fields) (k : String) : Option Value :=
  (contents w f).lookup k

/-- Replace the contents of cell `r`. -/
def World.store (w : World) (r : Nat) (m : Entries) : World :=
  { w with cell := fun a => if a = r then m else w.cell a }

/-- Map write `f[k] = v` on the map at address `r`. -/
def cellSet (r : Nat) (k : String) (v : Value) (w : World) : World :=
  w.store r ((w.cell r).insert k v)

/-- Map write `f[k] = v` through a `Fields` value; panics on the nil map. -/
def mapAssign (f : Fields) (k : String) (v : Value) (w : World) : Except Panic World :=
  match f with
  | none => .error Panic.nilMapAssign
  | some r => .ok (cellSet r k v w)

/-- Built-in `delete(f, k)` through a `Fields` value; a no-op on the nil map. -/
def mapDelete (f : Fields) (k : String) (w : World) : World :=
  match f with
  | none => w
  | some r => w.store r ((w.cell r).erase k)

/-- Allocation of an empty map (`Fields{}`, `make(Fields)`): its address and the new world. -/
def alloc (w : World) : Nat × World :=
  (w.next, { w.store w.next ∅ with next := w.next + 1 })

/-- `fmt.Printf` of one diagnostic line. -/
def World.printf (w : World) (d : Diag) : World :=
  { w with printed := w.printed ++ [d] }

/-! ## Configuration (`yawhg.go`) -/

/-- The constant `RequestIDHeader`. -/
def RequestIDHeader : String := "x-request-id"
/-- The constant `requestIDKey`. -/
def requestIDKey : String := "request_id"

/-- Go `Options`. -/
structure Options where
  AppVersion : String
  Enabled : Bool
  LogLevel : String

/-- Go `init`: standard output, Info threshold, an empty pool; no map allocated yet and the
version tag at its zero value. -/
def init : World :=
  { cell := fun _ => ∅, next := 0, Destination := Writer.stdout, appVersion := "",
    appLogLevel := InfoLevel, fieldsPool := [], written := [], printed := [] }

/-- Go `ConfigYawhg`. -/
def ConfigYawhg (options : Options) (w : World) : World :=
  let w1 := if !options.Enabled then { w with Destination := Writer.discard } else w
  let w2 := { w1 with appVersion := options.AppVersion }
  if options.LogLevel = "DebugLevel" then { w2 with appLogLevel := DebugLevel }
  else if options.LogLevel = "InfoLevel" then { w2 with appLogLevel := InfoLevel }
  else if options.LogLevel = "ErrorLevel" then { w2 with appLogLevel := ErrorLevel }
  else { w2 with appLogLevel := InfoLevel }

/-- Go `NewLogger`: `make(Fields)`. -/
def NewLogger (w : World) : Fields × World :=
  let (r, w1) := alloc w
  (some r, w1)

/-! ## Request ids (`yawhg_context.go`) -/

/-- Metadata (`metadata.MD`) and HTTP headers (`http.Header`): for each key the list of its
values. -/
abbrev MD := AList (fun _ : String => List String)

/-- Map read `md[k]`, with the zero value (no values) for a missing key. -/
def MD.values (md : MD) (k : String) : List String :=
  (md.lookup k).getD []

/-- Go `metadata.MD.Get`: the key is lowered, then looked up. -/
def MD.Get (md : MD) (k : String) : List String :=
  md.values (ToLower k)

/-- A `context.Context` as the package sees it: the incoming and the outgoing gRPC metadata,
each absent (`none`) when the context carries none, with the lower-case keys under which
`metadata.FromIncomingContext` and `metadata.FromOutgoingContext` return them. Outgoing
metadata is kept merged, as `metadata.FromOutgoingContext` returns it. -/
structure Context where
  incoming : Option MD
  outgoing : Option MD
  deriving DecidableEq

/-- Go `context.Background()`. -/
def Background : Context := { incoming := none, outgoing := none }

/-- Go `metadata.AppendToOutgoingContext(ctx, k, v)`: the value is added after the values
the lowered key already has. -/
def AppendToOutgoingContext (ctx : Context) (k v : String) : Context :=
  let md : MD := ctx.outgoing.getD ∅
  { ctx with outgoing := some (md.insert (ToLower k) (md.values (ToLower k) ++ [v])) }

/-- Go `AddToContext`. -/
def AddToContext (ctx : Context) (requestID : String) : Context :=
  AppendToOutgoingContext ctx RequestIDHeader requestID

/-- Outcome of `uuid.NewV4()`: a UUID, or an error together with the zero UUID. -/
inductive NewV4Result
  | ok (id : String)
  | failed (msg : String)
  deriving DecidableEq, Repr

/-- The error that `uuid.NewV4()` returned, as a nullable error value. -/
def NewV4Result.err : NewV4Result → Option String
  | .ok _ => none
  | .failed msg => some msg

/-- Go `UUID.String` of the UUID that `uuid.NewV4()` returned. -/
def NewV4Result.String : NewV4Result → String
  | .ok id => id
  | .failed _ => "00000000-0000-0000-0000-000000000000"

/-- The test `ok && len(md.Get(RequestIDHeader)) > 0` of `FromContext` together with the
value `md.Get(RequestIDHeader)[0]` it returns then. -/
def firstRequestID (md : Option MD) : Option String :=
  match md with
  | none => none
  | some m => (m.Get RequestIDHeader).head?

/-- Go `FromContext`; `newV4` is what `uuid.NewV4()` returns if it is called. -/
def FromContext (ctx : Context) (newV4 : NewV4Result) : Context × String :=
  match firstRequestID ctx.incoming with
  | some v => (ctx, v)
  | none =>
    match firstRequestID ctx.outgoing with
    | some v => (ctx, v)
    | none =>
      let requestID := newV4.String
      (AddToContext ctx requestID, requestID)

/-- ASCII upper case of a rune. -/
def upperASCII (c : Char) : Char :=
  if 97 ≤ c.toNat ∧ c.toNat ≤ 122 then Char.ofNat (c.toNat - 32) else c

/-- ASCII lower case of a rune. -/
def lowerASCII (c : Char) : Char :=
  if 65 ≤ c.toNat ∧ c.toNat ≤ 90 then Char.ofNat (c.toNat + 32) else c

/-- Letter case of `textproto.CanonicalMIMEHeaderKey`: upper case at the start and after a
hyphen, lower case elsewhere. -/
def canonicalRunes : Bool → List Char → List Char
  | _, [] => []
  | upper, c :: cs =>
    (if upper then upperASCII c else lowerASCII c) :: canonicalRunes (c = '-') cs

/-- Go `textproto.CanonicalMIMEHeaderKey` on header names made of letters, digits and
hyphens. -/
def CanonicalMIMEHeaderKey (k : String) : String :=
  String.mk (canonicalRunes true k.data)

/-- An `*http.Request` as the package sees it: its header map (`none` when nil) and its
context. -/
structure Request where
  Header : Option MD
  ctx : Context
  deriving DecidableEq

/-- Go `http.Header.Get`: the first value of the canonical key, or the empty string. -/
def headerGet (h : Option MD) (k : String) : String :=
  match h with
  | none => ""
  | some md => ((md.values (CanonicalMIMEHeaderKey k)).head?).getD ""

/-- Go `http.Header.Set`: the canonical key gets the single value; panics on a nil header. -/
def headerSet (h : Option MD) (k v : String) : Except Panic (Option MD) :=
  match h with
  | none => .error Panic.nilMapAssign
  | some md => .ok (some (md.insert (CanonicalMIMEHeaderKey k) [v]))

/-- Go `FromHeader`. -/
def FromHeader (req : Request) : String :=
  headerGet req.Header RequestIDHeader

/-- Go `AddToHeader`: the context with the id attached and the copied request carrying the
header. In Go the copy shares its header map with `r`; the model keeps `r` as it was and
shows the new header on the returned request only. -/
def AddToHeader (r : Request) (requestID : String) : Except Panic (Context × Request) := do
  let h ← headerSet r.Header RequestIDHeader requestID
  let r2 : Request := { r with Header := h }
  let ctx := r2.ctx
  pure (AddToContext ctx requestID, r2)

/-! ## Fields (`yawhg_fields.go`) -/

/-- The loop of `Fields.Copy`: each pair read from the receiver is written to the new map. -/
def copyLoop (dst : Nat) : List (Sigma fun _ : String => Value) → World → World
  | [], w => w
  | ⟨key, value⟩ :: rest, w => copyLoop dst rest (cellSet dst key value w)

/-- Go `Fields.Copy`: the new map and the new world. -/
def Fields.Copy (f : Fields) (w : World) : Fields × World :=
  let (newFields, w1) := alloc w
  (some newFields, copyLoop newFields (contents w f).entries w1)

/-- Go `Fields.addBaseFields`; `now` is `time.Now().Format(time.RFC3339Nano)`. -/
def Fields.addBaseFields (f : Fields) (now : String) (w : World) : Except Panic World := do
  let w1 ← mapAssign f "time" (Value.str now) w
  mapAssign f "v" (Value.str w1.appVersion) w1

/-- Go `Fields.addTracing`: the context `FromContext` returned and the new world. -/
def Fields.addTracing (f : Fields) (ctx : Context) (newV4 : NewV4Result) (w : World) :
    Except Panic (Context × World) := do
  let (copyCtx, requestID) := FromContext ctx newV4
  let w1 ← mapAssign f requestIDKey (Value.str requestID) w
  pure (copyCtx, w1)

/-- Go `Fields.checkSeverityLevel`: the pair `(Level, error)`. -/
def Fields.checkSeverityLevel (f : Fields) (w : World) : Level × Option Err :=
  match mapIndex w f "severity" with
  | some (Value.str severityLevel) => parseLevel severityLevel
  | _ => (0, some Err.severityNotSet)

/-- Go `Fields.fire`: `json.NewEncoder(Destination).Encode(f)` encodes the whole map first
and issues one `Write` only if that succeeded; an error of either step is printed. -/
def Fields.fire (f : Fields) (w : World) : World :=
  let record := contents w f
  if record.encodable then
    let w1 := { w with written := w.written ++ [(w.Destination, record)] }
    if w.Destination.fails then w1.printf (Diag.logging Err.writeFailed) else w1
  else w.printf (Diag.logging Err.jsonUnsupported)

/-- The loop of `Fields.resetWrapper`: `delete` of each key met. -/
def resetLoop (f : Fields) : List String → World → World
  | [], w => w
  | k :: rest, w => resetLoop f rest (mapDelete f k w)

/-- Go `Fields.resetWrapper`. -/
def Fields.resetWrapper (f : Fields) (w : World) : World :=
  resetLoop f (contents w f).keys w

/-! ## The pipeline (`yawhg.go`) -/

/-- The loop of `addErrors`: nil errors are skipped, the text of the others is appended. -/
def errStringsLoop : List String → List (Option String) → List String
  | acc, [] => acc
  | acc, none :: rest => errStringsLoop acc rest
  | acc, some e :: rest => errStringsLoop (acc ++ [e]) rest

/-- Go `addErrors`; an error value is `none` (nil) or `some s` with `s` its `Error()` text. -/
def addErrors (f : Fields) (errors : List (Option String)) (w : World) :
    Except Panic World :=
  if errors.length > 0 then
    let errStrings := errStringsLoop [] errors
    if errStrings.length > 0 then
      mapAssign f "Error" (Value.str (String.intercalate ", " errStrings)) w
    else .ok w
  else .ok w

/-- Go `WithFields`: the returned map and the new world. -/
def WithFields (details : Fields) (errors : List (Option String)) (w : World) :
    Except Panic (Fields × World) := do
  let w1 ← addErrors details errors w
  let (data, w2) := details.Copy w1
  pure (data, w2)

/-- Go `WithTracing`: the returned map and the new world. -/
def WithTracing (ctx : Context) (details : Fields) (errors : List (Option String))
    (newV4 : NewV4Result) (w : World) : Except Panic (Fields × World) := do
  let w1 ← addErrors details errors w
  let (data, w2) := details.Copy w1
  let (_, w3) ← data.addTracing ctx newV4 w2
  pure (data, w3)

/-- The severity check shared by `structuredWrap` and `textWrap`: the level used by the
gate and the world after the diagnostic, if any, is printed. -/
def gateLevel (f : Fields) (w : World) : Level × World :=
  match f.checkSeverityLevel w with
  | (_, some err) => (InfoLevel, w.printf (Diag.checkingSeverity err))
  | (messageLevel, none) => (messageLevel, w)

/-- Go `structuredWrap`. -/
def structuredWrap (msgMap : Fields) (now : String) (w : World) : Except Panic World := do
  let w1 ← msgMap.addBaseFields now w
  let (messageLevel, w2) := gateLevel msgMap w1
  if messageLevel ≥ w2.appLogLevel then pure (msgMap.fire w2) else pure w2

/-- Go `fieldsPool.Get()`: a pooled instance if there is one, else `New()`. -/
def poolGet (w : World) : Nat × World :=
  match w.fieldsPool with
  | r :: rest => (r, { w with fieldsPool := rest })
  | [] => alloc w

/-- Go `fieldsPool.Put`. -/
def poolPut (r : Nat) (w : World) : World :=
  { w with fieldsPool := r :: w.fieldsPool }

/-- Go `textWrap`: the body, then the deferred `resetWrapper` and `Put`, in that order. -/
def textWrap (ctx : Context) (msg level : String) (newV4 : NewV4Result) (now : String)
    (w : World) : Except Panic World := do
  let (r, w0) := poolGet w
  let data : Fields := some r
  let w1 ← mapAssign data "severity" (Value.str level) w0
  let w2 ← mapAssign data "msg" (Value.str msg) w1
  let w3 ← data.addBaseFields now w2
  let (_, w4) ← data.addTracing ctx newV4 w3
  let (messageLevel, w5) := gateLevel data w4
  let w6 := if messageLevel ≥ w5.appLogLevel then data.fire w5 else w5
  pure (poolPut r (data.resetWrapper w6))

/-- Go `(*Fields).Error` (`yawhg_error.go`). -/
def Fields.Error (f : Fields) (msg : String) (now : String) (w : World) :
    Except Panic World := do
  let w1 ← mapAssign f "severity" (Value.str ErrorLevel.String) w
  let w2 ← mapAssign f "msg" (Value.str msg) w1
  structuredWrap f now w2

/-! ## Level entry points (`yawhg_debug.go`, `yawhg_info.go`, `yawhg_error.go`)

The three files hold the same ten functions and differ in the level constant only; each
body is written once with the level as an argument and named per level below.
`fmt.Sprint` and `fmt.Sprintf` are arguments of the functions that call them. -/

/-- Body of `(*Fields).Debug`, `(*Fields).Info` and `(*Fields).Error`. -/
def Fields.logMsg (level : Level) (f : Fields) (msg : String) (now : String) (w : World) :
    Except Panic World := do
  let w1 ← mapAssign f "severity" (Value.str level.String) w
  let w2 ← mapAssign f "msg" (Value.str msg) w1
  structuredWrap f now w2

/-- Go `(*Fields).Debug`. -/
def Fields.Debug (f : Fields) (msg : String) (now : String) (w : World) :
    Except Panic World :=
  Fields.logMsg DebugLevel f msg now w

/-- Go `(*Fields).Info`. -/
def Fields.Info (f : Fields) (msg : String) (now : String) (w : World) :
    Except Panic World :=
  Fields.logMsg InfoLevel f msg now w

/-- Body of `(*Fields).Debugf`, `(*Fields).Infof` and `(*Fields).Errorf`. -/
def Fields.logf (Sprintf : String → List Value → String) (level : Level) (f : Fields)
    (format : String) (v : List Value) (now : String) (w : World) : Except Panic World := do
  let w1 ← mapAssign f "severity" (Value.str level.String) w
  let w2 ← mapAssign f "msg" (Value.str (Sprintf format v)) w1
  structuredWrap f now w2

/-- Go `(*Fields).Debugf`. -/
def Fields.Debugf (Sprintf : String → List Value → String) (f : Fields) (format : String)
    (v : List Value) (now : String) (w : World) : Except Panic World :=
  Fields.logf Sprintf DebugLevel f format v now w

/-- Go `(*Fields).Infof`. -/
def Fields.Infof (Sprintf : String → List Value → String) (f : Fields) (format : String)
    (v : List Value) (now : String) (w : World) : Except Panic World :=
  Fields.logf Sprintf InfoLevel f format v now w

/-- Go `(*Fields).Errorf`. -/
def Fields.Errorf (Sprintf : String → List Value → String) (f : Fields) (format : String)
    (v : List Value) (now : String) (w : World) : Except Panic World :=
  Fields.logf Sprintf ErrorLevel f format v now w

/-- The loop `for k, v := range details { (*f)[k] = v }` of the cumulative `w` methods. -/
def assignLoop (f : Fields) : List (Sigma fun _ : String => Value) → World →
    Except Panic World
  | [], w => .ok w
  | ⟨k, v⟩ :: rest, w => do
    let w1 ← mapAssign f k v w
    assignLoop f rest w1

/-- Body of `(*Fields).Debugw`, `(*Fields).Infow` and `(*Fields).Errorw`. -/
def Fields.logw (level : Level) (f details : Fields) (now : String) (w : World) :
    Except Panic World := do
  let w1 ← assignLoop f (contents w details).entries w
  let w2 ← mapAssign f "severity" (Value.str level.String) w1
  structuredWrap f now w2

/-- Go `(*Fields).Debugw`. -/
def Fields.Debugw (f details : Fields) (now : String) (w : World) : Except Panic World :=
  Fields.logw DebugLevel f details now w

/-- Go `(*Fields).Infow`. -/
def Fields.Infow (f details : Fields) (now : String) (w : World) : Except Panic World :=
  Fields.logw InfoLevel f details now w

/-- Go `(*Fields).Errorw`. -/
def Fields.Errorw (f details : Fields) (now : String) (w : World) : Except Panic World :=
  Fields.logw ErrorLevel f details now w

/-- The loop `for i, value := range v { message[i] = fmt.Sprint(value) }` of the stateless
functions, from index `i` on. -/
def sprintLoop (Sprint : Value → String) : Nat → List Value → List String → List String
  | _, [], message => message
  | i, value :: rest, message => sprintLoop Sprint (i + 1) rest (message.set i (Sprint value))

/-- Body of `Debug`, `Info` and `Error`: `message` is made with the length of `v`, filled
by the loop and joined. -/
def logText (Sprint : Value → String) (level : Level) (v : List Value)
    (newV4 : NewV4Result) (now : String) (w : World) : Except Panic World :=
  let message := sprintLoop Sprint 0 v (List.replicate v.length "")
  textWrap Background (String.intercalate ", " message) level.String newV4 now w

/-- Go `Debug`. -/
def Debug (Sprint : Value → String) (v : List Value) (newV4 : NewV4Result) (now : String)
    (w : World) : Except Panic World :=
  logText Sprint DebugLevel v newV4 now w

/-- Go `Info`. -/
def Info (Sprint : Value → String) (v : List Value) (newV4 : NewV4Result) (now : String)
    (w : World) : Except Panic World :=
  logText Sprint InfoLevel v newV4 now w

/-- Go `Error`. -/
def Error (Sprint : Value → String) (v : List Value) (newV4 : NewV4Result) (now : String)
    (w : World) : Except Panic World :=
  logText Sprint ErrorLevel v newV4 now w

/-- Body of `Debugft`, `Infoft` and `Errorft`. -/
def logTextft (Sprintf : String → List Value → String) (level : Level) (ctx : Context)
    (format : String) (v : List Value) (newV4 : NewV4Result) (now : String) (w : World) :
    Except Panic World :=
  textWrap ctx (Sprintf format v) level.String newV4 now w

/-- Go `Debugft`. -/
def Debugft (Sprintf : String → List Value → String) (ctx : Context) (format : String)
    (v : List Value) (newV4 : NewV4Result) (now : String) (w : World) : Except Panic World :=
  logTextft Sprintf DebugLevel ctx format v newV4 now w

/-- Go `Infoft`. -/
def Infoft (Sprintf : String → List Value → String) (ctx : Context) (format : String)
    (v : List Value) (newV4 : NewV4Result) (now : String) (w : World) : Except Panic World :=
  logTextft Sprintf InfoLevel ctx format v newV4 now w

/-- Go `Errorft`. -/
def Errorft (Sprintf : String → List Value → String) (ctx : Context) (format : String)
    (v : List Value) (newV4 : NewV4Result) (now : String) (w : World) : Except Panic World :=
  logTextft Sprintf ErrorLevel ctx format v newV4 now w

/-- Go `Debugf`: `Debugft` on the background context. -/
def Debugf (Sprintf : String → List Value → String) (format : String) (v : List Value)
    (newV4 : NewV4Result) (now : String) (w : World) : Except Panic World :=
  Debugft Sprintf Background format v newV4 now w

/-- Go `Infof`: `Infoft` on the background context. -/
def Infof (Sprintf : String → List Value → String) (format : String) (v : List Value)
    (newV4 : NewV4Result) (now : String) (w : World) : Except Panic World :=
  Infoft Sprintf Background format v newV4 now w

/-- Go `Errorf`: `Errorft` on the background context. -/
def Errorf (Sprintf : String → List Value → String) (format : String) (v : List Value)
    (newV4 : NewV4Result) (now : String) (w : World) : Except Panic World :=
  Errorft Sprintf Background format v newV4 now w

/-- Body of the free functions `Debugw`, `Infow` and `Errorw`; `f` is the caller's map. -/
def logMap (level : Level) (f : Fields) (now : String) (w : World) : Except Panic World := do
  let w1 ← mapAssign f "severity" (Value.str level.String) w
  structuredWrap f now w1

/-- Go `Debugw`. -/
def Debugw (f : Fields) (now : String) (w : World) : Except Panic World :=
  logMap DebugLevel f now w

/-- Go `Infow`. -/
def Infow (f : Fields) (now : String) (w : World) : Except Panic World :=
  logMap InfoLevel f now w

/-- Go `Errorw`. -/
def Errorw (f : Fields) (now : String) (w : World) : Except Panic World :=
  logMap ErrorLevel f now w

/-- Body of `DebugWithTracing`, `InfoWithTracing` and `ErrorWithTracing`; `f` is the
caller's map. -/
def logMapWithTracing (level : Level) (ctx : Context) (f : Fields)
    (errors : List (Option String)) (newV4 : NewV4Result) (now : String) (w : World) :
    Except Panic World := do
  let w1 ← addErrors f errors w
  let w2 ← mapAssign f "severity" (Value.str level.String) w1
  let (_, w3) ← f.addTracing ctx newV4 w2
  structuredWrap f now w3

/-- Go `DebugWithTracing`. -/
def DebugWithTracing (ctx : Context) (f : Fields) (errors : List (Option String))
    (newV4 : NewV4Result) (now : String) (w : World) : Except Panic World :=
  logMapWithTracing DebugLevel ctx f errors newV4 now w

/-- Go `InfoWithTracing`. -/
def InfoWithTracing (ctx : Context) (f : Fields) (errors : List (Option String))
    (newV4 : NewV4Result) (now : String) (w : World) : Except Panic World :=
  logMapWithTracing InfoLevel ctx f errors newV4 now w

/-- Go `ErrorWithTracing`. -/
def ErrorWithTracing (ctx : Context) (f : Fields) (errors : List (Option String))
    (newV4 : NewV4Result) (now : String) (w : World) : Except Panic World :=
  logMapWithTracing ErrorLevel ctx f errors newV4 now w

/-! ## Middleware (`yawhg_middleware.go`) -/

/-- The bytes of the UTF-8 encoding of a rune: what a Go string stores for it. -/
def utf8Bytes (c : Char) : List Nat :=
  if c.toNat < 128 then [c.toNat]
  else if c.toNat < 2048 then [192 + c.toNat / 64, 128 + c.toNat % 64]
  else if c.toNat < 65536 then
    [224 + c.toNat / 4096, 128 + c.toNat / 64 % 64, 128 + c.toNat % 64]
  else
    [240 + c.toNat / 262144, 128 + c.toNat / 4096 % 64, 128 + c.toNat / 64 % 64,
      128 + c.toNat % 64]

/-- The bytes of the Go string that holds the runes `cs`. -/
def runeBytes : List Char → List Nat
  | [] => []
  | c :: cs => utf8Bytes c ++ runeBytes cs

/-- Go `len(s)` for a string holding the text `s`: the number of its bytes. -/
def len (s : String) : Nat := (runeBytes s.data).length

/-- A Go string cut out of a text: whole runes, then the leading bytes of the rune the cut
fell in (none when it fell between two runes, and the string is then the text `runes`). -/
structure GoString where
  runes : String
  rest : List Nat
  deriving DecidableEq

/-- The Go string holding a text. -/
def GoString.text (s : String) : GoString := ⟨s, []⟩

/-- The bytes of a Go string. -/
def GoString.bytes (s : GoString) : List Nat := runeBytes s.runes.data ++ s.rest

/-- The first `n` bytes of the runes `cs`: the runes that lie wholly within them, and the
bytes among them of the rune that does not. -/
def sliceRunes : List Char → Nat → List Char × List Nat
  | [], _ => ([], [])
  | c :: cs, n =>
    if (utf8Bytes c).length ≤ n then
      (c :: (sliceRunes cs (n - (utf8Bytes c).length)).1,
        (sliceRunes cs (n - (utf8Bytes c).length)).2)
    else ([], (utf8Bytes c).take n)

/-- Go slice expression `s[:n]` for `n` within `len(s)`: the first `n` bytes of `s`. -/
def sliceTo (s : String) (n : Nat) : GoString :=
  ⟨String.mk (sliceRunes s.data n).1, (sliceRunes s.data n).2⟩

/-- The request `HTTPTraceMiddleware` passes to `next.ServeHTTP`. A `Request` holds texts;
a request id cut inside a rune is not a text, and the request passed on is then written
`cutID r id`: the request `AddToHeader(r, id)` returns, under the context it returns. -/
inductive Forwarded
  | request (r : Request)
  | cutID (r : Request) (id : GoString)
  deriving DecidableEq

/-- The bytes of the x-request-id header value of the request passed on. -/
def Forwarded.requestID : Forwarded → List Nat
  | Forwarded.request r => runeBytes (FromHeader r).data
  | Forwarded.cutID _ id => id.bytes

/-- Go `HTTPTraceMiddleware`: the request handed to `next.ServeHTTP` and the new world.
`newV4` is the outcome of the call `uuid.NewV4()` of the middleware, `newV4Log` that of the
call inside `WithTracing` on the failure path. The call `AddToHeader(r, reqID)` is the
model's `AddToHeader` when `reqID` is a text; on an id cut inside a rune it panics on a
nil header as `AddToHeader` does and else yields the request `cutID r reqID`. -/
def HTTPTraceMiddleware (r : Request) (newV4 newV4Log : NewV4Result) (now : String)
    (w : World) : Except Panic (Forwarded × World) := do
  let reqID := headerGet r.Header RequestIDHeader
  let l := len reqID
  let (reqID, err, w1) ←
    (if l = 0 then do
      let w1 ← (match newV4.err with
        | some e => do
          let (details, wa) := alloc w
          let (data, wb) ← WithTracing r.ctx (some details) [some e] newV4Log wa
          data.Error "failed to generate new request ID" now wb
        | none => pure w)
      pure (GoString.text newV4.String, newV4.err, w1)
    else if l > 36 then pure (sliceTo reqID 36, none, w)
    else pure (GoString.text reqID, none, w) : Except Panic (GoString × Option String × World))
  match err with
  | some _ => pure (Forwarded.request r, w1)
  | none =>
    match reqID.rest with
    | [] => do
      let (ctx, updatedReq) ← AddToHeader r reqID.runes
      pure (Forwarded.request { updatedReq with ctx := ctx }, w1)
    | _ :: _ => do
      let _ ← headerSet r.Header RequestIDHeader reqID.runes
      pure (Forwarded.cutID r reqID, w1)

/-! ## Definitions used to state the properties -/

/-- The level a severity string stands for in the claim on gating: the level it parses to,
or Info when it does not parse. -/
def resolveString (s : String) : Level :=
  match parseLevel s with
  | (lvl, none) => lvl
  | (_, some _) => InfoLevel

/-- The level the claim on gating calls `L`: the level parsed from `f["severity"]`, or Info
when the key is absent, is not a string, or does not parse. -/
def resolvedLevel (w : World) (f : Fields) : Level :=
  match mapIndex w f "severity" with
  | some (Value.str s) => resolveString s
  | _ => InfoLevel

/-- Two runes are the same letter up to case, `d` being a small letter a–z: `c` is `d`, or
the capital letter of `d`, or one of the two other runes that the simple case folding of
Unicode joins to a letter a–z (the Kelvin sign U+212A to k, the long s U+017F to s). -/
def foldsTo (c d : Char) : Prop :=
  c = d ∨ (97 ≤ d.toNat ∧ d.toNat ≤ 122 ∧ c.toNat + 32 = d.toNat) ∨
    (d.toNat = 107 ∧ c.toNat = 8490) ∨ (d.toNat = 115 ∧ c.toNat = 383)

instance foldsTo.decidable (c d : Char) : Decidable (foldsTo c d) := by
  unfold foldsTo; exact inferInstance

/-- The claim's case-insensitive match of a word in small letters a–z: `s` has as many
runes as the word, each the same letter up to case as the word's rune at that place. The
lower-casing of the code takes no part in it. -/
def caseInsensitiveMatch (s word : String) : Prop :=
  List.Forall₂ foldsTo s.data word.data

instance caseInsensitiveMatch.decidable (s word : String) :
    Decidable (caseInsensitiveMatch s word) := by
  unfold caseInsensitiveMatch; exact inferInstance

/-- A mutation of a map: an insertion or overwrite of a key, or a deletion. -/
inductive MapOp
  | assign (k : String) (v : Value)
  | delete (k : String)
  deriving DecidableEq, Repr

/-- Apply mutations, in order, to the map at address `r`. -/
def applyOps (r : Nat) : List MapOp → World → World
  | [], w => w
  | MapOp.assign k v :: rest, w => applyOps r rest (cellSet r k v w)
  | MapOp.delete k :: rest, w => applyOps r rest (mapDelete (some r) k w)

/-- The records written so far, as key/value pairs, if the call returned; nothing if it
panicked. -/
def writtenOf (x : Except Panic World) : Option (List (Writer × List (String × Value))) :=
  match x with
  | .ok w => some (w.written.map fun p => (p.1, p.2.entries.map fun e => (e.1, e.2)))
  | .error _ => none

/-- A world with one map, at address 0, holding `"Test": "Foo"`; everything else as `init`
leaves it. -/
def exampleWorld : World :=
  cellSet 0 "Test" (Value.str "Foo") (alloc init).2

/-- The world `exampleWorld` after the map got `"severity": "error"` and a channel under
`"payload"`. -/
def unencodableWorld : World :=
  cellSet 0 "payload" (Value.chan 1) (cellSet 0 "severity" (Value.str "error") exampleWorld)

/-- The world `exampleWorld` with `"severity": "debug"` in the map; the minimum severity is
Info, as `init` sets it. -/
def debugRecordWorld : World :=
  cellSet 0 "severity" (Value.str "debug") exampleWorld

/-- The world `exampleWorld` with `"severity": "info"` in the map and the minimum severity
set to Debug. -/
def infoRecordWorld : World :=
  { cellSet 0 "severity" (Value.str "info") exampleWorld with appLogLevel := DebugLevel }

/-- A context whose incoming metadata holds `abc-123` and whose outgoing metadata holds
`out-1` under the request-id key. -/
def bothContext : Context :=
  { incoming := some (AList.insert "x-request-id" ["abc-123", "second"] ∅),
    outgoing := some (AList.insert "x-request-id" ["out-1"] ∅) }

/-- A context with no incoming metadata whose outgoing metadata holds `out-1` under the
request-id key. -/
def outgoingContext : Context :=
  { incoming := none, outgoing := some (AList.insert "x-request-id" ["out-1"] ∅) }

/-- A request whose request-id header holds the given value. -/
def requestWith (h : String) : Request :=
  { Header := some (AList.insert "X-Request-Id" [h] ∅), ctx := Background }

/-- Go `strings.Title` on a one-word ASCII string, as the tests apply it to a level name:
the first letter in upper case. -/
def Title (s : String) : String :=
  match s.data with
  | [] => ""
  | c :: cs => String.mk (upperASCII c :: cs)

/-- A request without a header map (`Header` is nil) on the background context. -/
def headerlessRequest : Request := { Header := none, ctx := Background }

/-- The context carries the request id `s`: it is the first incoming value for
x-request-id, or there is no incoming value and it is the first outgoing one. -/
def Carries (ctx : Context) (s : String) : Prop :=
  firstRequestID ctx.incoming = some s ∨
    (firstRequestID ctx.incoming = none ∧ firstRequestID ctx.outgoing = some s)

/-- The claim on the cumulative merge, between the world `w` before a call `f.Infow(d)` and
the world `w2` after it: every key of `d` other than severity, time and v maps in `f` to
its value in `d`, and every key absent from `d`, other than those three, keeps the value it
had in `f`. -/
def MergedInto (w w2 : World) (f d : Fields) : Prop :=
  (∀ k v, k ≠ "severity" → k ≠ "time" → k ≠ "v" → mapIndex w d k = some v →
    mapIndex w2 f k = some v) ∧
  (∀ k, k ≠ "severity" → k ≠ "time" → k ≠ "v" → mapIndex w d k = none →
    mapIndex w2 f k = mapIndex w f k)

/-- A world with three maps: an empty logger at address 0, `"myField": "foo"` at address 1
and `"additionalField": "bar"` at address 2. -/
def cumulativeWorld : World :=
  cellSet 2 "additionalField" (Value.str "bar") (alloc
    (cellSet 1 "myField" (Value.str "foo") (alloc (alloc init).2).2)).2

/-- The map `textWrap` hands to the gate: the instance drawn from the pool after the
assignments of severity, msg, time, v and request_id. -/
def textRecord (ctx : Context) (msg level : String) (newV4 : NewV4Result) (now : String)
    (w : World) : Entries :=
  ((((((poolGet w).2.cell (poolGet w).1).insert "severity" (Value.str level)).insert "msg"
    (Value.str msg)).insert "time" (Value.str now)).insert "v"
      (Value.str w.appVersion)).insert requestIDKey (Value.str (FromContext ctx newV4).2)

/-- Between the worlds `w` and `w2` at most one record was written, to the destination of
`w`, and if one was it holds `val` under `key`. -/
def LoggedWith (w w2 : World) (key : String) (val : Value) : Prop :=
  w2.written = w.written ∨
    ∃ record : Entries, w2.written = w.written ++ [(w.Destination, record)] ∧
      record.lookup key = some val

/-- The context of the tests: the background context with `fake-request-id` attached as
outgoing request id. -/
def fakeIDContext : Context := AddToContext Background "fake-request-id"

/-- The world `exampleWorld` with a destination whose `Write` fails. -/
def brokenSinkWorld : World :=
  { exampleWorld with Destination := Writer.custom 1 true }

/-- The arguments of one call of `textWrap`, as a stateless function makes it, with what
`uuid.NewV4()` and `time.Now()` return during the call. -/
structure StatelessCall where
  ctx : Context
  msg : String
  level : String
  newV4 : NewV4Result
  now : String

/-- A sequence of stateless calls, one after the other. -/
def runStateless : List StatelessCall → World → Except Panic World
  | [], w => .ok w
  | c :: rest, w => do
    let w1 ← textWrap c.ctx c.msg c.level c.newV4 c.now w
    runStateless rest w1

/-- Two stateless calls: an Info message, then a Debug message. -/
def twoCalls : List StatelessCall :=
  [{ ctx := Background, msg := "first", level := "info",
     newV4 := NewV4Result.ok "id-1", now := "t1" },
   { ctx := Background, msg := "second", level := "debug",
     newV4 := NewV4Result.ok "id-2", now := "t2" }]

/-- The record carries exactly the keys severity, msg, time, v and request_id, with the
values of the call `c` and the version tag `version`. -/
def OwnRecord (c : StatelessCall) (version : String) (record : Entries) : Prop :=
  (∀ k, k ∈ record ↔ k ∈ ["severity", "msg", "time", "v", "request_id"]) ∧
  record.lookup "severity" = some (Value.str c.level) ∧
  record.lookup "msg" = some (Value.str c.msg) ∧
  record.lookup "time" = some (Value.str c.now) ∧
  record.lookup "v" = some (Value.str version) ∧
  record.lookup "request_id" = some (Value.str (FromContext c.ctx c.newV4).2)

/-- Between the worlds `w` and `w2` the gate ran at level `L` and the check of the severity
printed nothing: below the threshold nothing is written and nothing printed; otherwise
either one record with the severity `L.String` is written (and at most the failure of the
write printed), or the record could not be encoded, nothing is written and that failure is
printed. -/
def DecidedBy (L : Level) (w w2 : World) : Prop :=
  (L < w.appLogLevel → w2.written = w.written ∧ w2.printed = w.printed) ∧
  (L ≥ w.appLogLevel →
    (∃ record : Entries, w2.written = w.written ++ [(w.Destination, record)] ∧
      record.lookup "severity" = some (Value.str L.String) ∧
      (w2.printed = w.printed ∨
        w2.printed = w.printed ++ [Diag.logging Err.writeFailed])) ∨
    (w2.written = w.written ∧
      w2.printed = w.printed ++ [Diag.logging Err.jsonUnsupported]))

/-- After a call at the level named `name` the caller's own map at address `r` holds that
name under severity, the time stamp under time and the version tag under v; no map was
allocated. -/
def OwnMapStamped (name now : String) (w w2 : World) (r : Nat) : Prop :=
  mapIndex w2 (some r) "severity" = some (Value.str name) ∧
  mapIndex w2 (some r) "time" = some (Value.str now) ∧
  mapIndex w2 (some r) "v" = some (Value.str w.appVersion) ∧
  w2.next = w.next

/-- After a `WithTracing` function the caller's own map at address `r` also holds the id
`FromContext` returned under request_id and, when some error is non-nil, the joined texts
of the non-nil errors under Error; every other key, and Error when no error is non-nil,
is as before. -/
def OwnMapTraced (ctx : Context) (newV4 : NewV4Result) (errors : List (Option String))
    (w w2 : World) (r : Nat) : Prop :=
  mapIndex w2 (some r) "request_id" = some (Value.str (FromContext ctx newV4).2) ∧
  (errors.filterMap id ≠ [] → mapIndex w2 (some r) "Error" =
    some (Value.str (String.intercalate ", " (errors.filterMap id)))) ∧
  (errors.filterMap id = [] → mapIndex w2 (some r) "Error" = mapIndex w (some r) "Error") ∧
  (∀ k, k ≠ "severity" → k ≠ "time" → k ≠ "v" → k ≠ "request_id" → k ≠ "Error" →
    mapIndex w2 (some r) k = mapIndex w (some r) k)

/-- The world `exampleWorld` with the number 7 under severity in the map and the minimum
severity set to Debug. -/
def numberSeverityWorld : World :=
  { cellSet 0 "severity" (Value.int 7) exampleWorld with appLogLevel := DebugLevel }

/-- Every instance held by the pool is an allocated, empty map, and no instance is held
twice. -/
def PoolClean (w : World) : Prop :=
  (∀ r ∈ w.fieldsPool, r < w.next ∧ w.cell r = ∅) ∧ w.fieldsPool.Nodup

/-! ## Levels: proofs -/

theorem char_eq_iff_toNat (c d : Char) : c = d ↔ c.toNat = d.toNat := by
  constructor
  · rintro rfl; rfl
  · intro h
    rw [← Char.ofNat_toNat c, ← Char.ofNat_toNat d, h]

theorem toLowerRune_toNat (c : Char) :
    (toLowerRune c).toNat =
      if 65 ≤ c.toNat ∧ c.toNat ≤ 90 then c.toNat + 32
      else if c.toNat = 304 then 105
      else if c.toNat = 8490 then 107
      else c.toNat := by
  unfold toLowerRune
  split_ifs with h1 h2 h3
  · obtain ⟨ha, hb⟩ := h1
    generalize c.toNat = n at ha hb
    interval_cases n <;> rfl
  · rfl
  · rfl
  · rfl

theorem toLowerRune_eq_iff (c d : Char) (h1 : 97 ≤ d.toNat) (h2 : d.toNat ≤ 122)
    (h3 : d.toNat ≠ 105) (h4 : d.toNat ≠ 115) : toLowerRune c = d ↔ foldsTo c d := by
  unfold foldsTo
  rw [char_eq_iff_toNat, char_eq_iff_toNat, toLowerRune_toNat]
  split_ifs <;> omega

theorem toLowerRune_eq_i (c : Char) :
    toLowerRune c = 'i' ↔ foldsTo c 'i' ∨ c.toNat = 304 := by
  unfold foldsTo
  rw [char_eq_iff_toNat, char_eq_iff_toNat, toLowerRune_toNat]
  have h : ('i' : Char).toNat = 105 := rfl
  rw [h]
  split_ifs <;> omega

theorem toLower_eq_iff (s word : String) :
    ToLower s = word ↔ List.Forall₂ (fun c d => toLowerRune c = d) s.data word.data := by
  unfold ToLower
  rw [String.ext_iff]
  constructor
  · intro h
    have h2 : List.Forall₂ (fun c d => c = d) (s.data.map toLowerRune) word.data := by
      have h3 : s.data.map toLowerRune = word.data := h
      rw [h3]; exact List.forall₂_refl word.data
    exact List.forall₂_map_left_iff.mp h2
  · intro h
    have h2 := List.forall₂_map_left_iff.mpr h
    exact List.forall₂_eq_eq_eq ▸ h2

theorem forall₂_congr_right {R S : Char → Char → Prop} (l2 : List Char) :
    ∀ l1 : List Char, (∀ d ∈ l2, ∀ c, R c d ↔ S c d) →
      (List.Forall₂ R l1 l2 ↔ List.Forall₂ S l1 l2) := by
  induction l2 with
  | nil => intro l1 _; simp
  | cons d ds ih =>
    intro l1 h
    cases l1 with
    | nil => simp
    | cons c cs =>
      rw [List.forall₂_cons, List.forall₂_cons, h d (List.mem_cons_self d ds) c,
        ih cs (fun e he => h e (List.mem_cons_of_mem d he))]

/-- Away from the letter i, the lowering of `strings.ToLower` is the claim's match. -/
theorem toLower_eq_iff_match (s word : String)
    (h : ∀ d ∈ word.data, 97 ≤ d.toNat ∧ d.toNat ≤ 122 ∧ d.toNat ≠ 105 ∧ d.toNat ≠ 115) :
    ToLower s = word ↔ caseInsensitiveMatch s word := by
  rw [toLower_eq_iff]
  exact forall₂_congr_right word.data s.data
    (fun d hd c => toLowerRune_eq_iff c d (h d hd).1 (h d hd).2.1 (h d hd).2.2.1
      (h d hd).2.2.2)

theorem toLower_info_iff (s : String) :
    ToLower s = "info" ↔
      caseInsensitiveMatch s "info" ∨ ∃ t, s = "İ" ++ t ∧ caseInsensitiveMatch t "nfo" := by
  have hnfo : ∀ t : String, ToLower t = "nfo" ↔ caseInsensitiveMatch t "nfo" :=
    fun t => toLower_eq_iff_match t "nfo" (by decide)
  obtain ⟨l⟩ := s
  cases l with
  | nil =>
    constructor
    · intro h; exact absurd h (by decide)
    · rintro (h | ⟨t, ht, _⟩)
      · exact absurd h (by decide)
      · have := congrArg String.data ht
        simp at this
  | cons c cs =>
    have hsplit : ToLower ⟨c :: cs⟩ = "info" ↔ toLowerRune c = 'i' ∧ ToLower ⟨cs⟩ = "nfo" := by
      rw [toLower_eq_iff, toLower_eq_iff]
      exact List.forall₂_cons
    have hmatch : caseInsensitiveMatch ⟨c :: cs⟩ "info" ↔
        foldsTo c 'i' ∧ caseInsensitiveMatch ⟨cs⟩ "nfo" := List.forall₂_cons
    rw [hsplit, hmatch, toLowerRune_eq_i, hnfo]
    constructor
    · rintro ⟨h1 | h1, h2⟩
      · exact Or.inl ⟨h1, h2⟩
      · refine Or.inr ⟨⟨cs⟩, ?_, h2⟩
        have hc : c = Char.ofNat 304 := (char_eq_iff_toNat _ _).mpr h1
        rw [hc]; rfl
    · rintro (⟨h1, h2⟩ | ⟨t, ht, h2⟩)
      · exact ⟨Or.inl h1, h2⟩
      · have hd := congrArg String.data ht
        simp only [String.data_append] at hd
        have hd2 : c :: cs = Char.ofNat 304 :: t.data := hd
        injection hd2 with hc hcs
        subst hc
        have ht2 : t = ⟨cs⟩ := String.ext hcs.symm
        subst ht2
        exact ⟨Or.inr rfl, h2⟩

theorem parseLevel_eq_debug (s : String) :
    parseLevel s = (DebugLevel, none) ↔ ToLower s = "debug" := by
  unfold parseLevel
  constructor
  · intro h
    by_contra hne
    simp only [] at h
    split_ifs at h <;> simp_all [DebugLevel, InfoLevel, ErrorLevel]
  · intro h
    simp [h, DebugLevel]

theorem parseLevel_eq_info (s : String) :
    parseLevel s = (InfoLevel, none) ↔ ToLower s = "info" := by
  unfold parseLevel
  constructor
  · intro h
    by_contra hne
    simp only [] at h
    split_ifs at h <;> simp_all [DebugLevel, InfoLevel, ErrorLevel]
  · intro h
    simp [h]

theorem parseLevel_eq_error (s : String) :
    parseLevel s = (ErrorLevel, none) ↔ ToLower s = "error" := by
  unfold parseLevel
  constructor
  · intro h
    by_contra hne
    simp only [] at h
    split_ifs at h <;> simp_all [DebugLevel, InfoLevel, ErrorLevel]
  · intro h
    simp [h]

/-- C6: for each of Debug, Info and Error, `String` is the lower-case name and `parseLevel`
of that name returns the level with no error; for every other level value `String` is
"unknown", and `parseLevel "unknown"` fails. -/
theorem level_string_roundtrip (L : Level) :
    (L = DebugLevel → Level.String L = "debug") ∧
    (L = InfoLevel → Level.String L = "info") ∧
    (L = ErrorLevel → Level.String L = "error") ∧
    ((L = DebugLevel ∨ L = InfoLevel ∨ L = ErrorLevel) →
      parseLevel (Level.String L) = (L, none)) ∧
    ((L ≠ DebugLevel ∧ L ≠ InfoLevel ∧ L ≠ ErrorLevel) → Level.String L = "unknown") ∧
    parseLevel "unknown" = (0, some (Err.notValidLevel "unknown")) := by
  refine ⟨?_, ?_, ?_, ?_, ?_, by decide⟩
  · rintro rfl; decide
  · rintro rfl; decide
  · rintro rfl; decide
  · rintro (rfl | rfl | rfl) <;> decide
  · rintro ⟨h0, h1, h2⟩
    simp [Level.String, h0, h1, h2]

/-- C6 at `ErrorLevel` and at the level value 7. -/
theorem level_string_roundtrip_witness :
    parseLevel (Level.String ErrorLevel) = (ErrorLevel, none) ∧ Level.String 7 = "unknown" :=
  ⟨(level_string_roundtrip ErrorLevel).2.2.2.1 (Or.inr (Or.inr rfl)),
   (level_string_roundtrip 7).2.2.2.2.1 (by decide)⟩

/-- C7, counterexample: the four runes U+0130 (capital I with a dot above), n, f, o are
no case-insensitive match of "info", "debug" or "error", yet `parseLevel` returns Info and
no error for them, since `strings.ToLower` lowers U+0130 to i. -/
theorem parseLevel_dotted_counterexample :
    parseLevel "İnfo" = (InfoLevel, none) ∧
    "İnfo" = String.mk [Char.ofNat 304, 'n', 'f', 'o'] ∧
    ¬ caseInsensitiveMatch "İnfo" "info" ∧ ¬ caseInsensitiveMatch "İnfo" "debug" ∧
    ¬ caseInsensitiveMatch "İnfo" "error" := by
  decide

/-- C7, amended: `parseLevel s` returns Debug, respectively Error, with no error exactly
when `s` is a case-insensitive match of "debug", respectively "error"; it returns Info with
no error exactly when `s` is a case-insensitive match of "info" or is the rune U+0130
followed by a case-insensitive match of "nfo"; for every other `s` (the empty string and
" info " among them) it returns the zero level and the invalid-level error naming `s`;
"INFO" and "Error" parse. -/
theorem parseLevel_case_insensitive (s : String) :
    (parseLevel s = (DebugLevel, none) ↔ caseInsensitiveMatch s "debug") ∧
    (parseLevel s = (InfoLevel, none) ↔
      caseInsensitiveMatch s "info" ∨ ∃ t, s = "İ" ++ t ∧ caseInsensitiveMatch t "nfo") ∧
    (parseLevel s = (ErrorLevel, none) ↔ caseInsensitiveMatch s "error") ∧
    ((¬ caseInsensitiveMatch s "debug" ∧
        ¬ (caseInsensitiveMatch s "info" ∨
            ∃ t, s = "İ" ++ t ∧ caseInsensitiveMatch t "nfo") ∧
        ¬ caseInsensitiveMatch s "error") →
      parseLevel s = (0, some (Err.notValidLevel s))) ∧
    parseLevel "INFO" = (InfoLevel, none) ∧ parseLevel "Error" = (ErrorLevel, none) ∧
    parseLevel "" = (0, some (Err.notValidLevel "")) ∧
    parseLevel " info " = (0, some (Err.notValidLevel " info ")) := by
  have hd : ToLower s = "debug" ↔ caseInsensitiveMatch s "debug" :=
    toLower_eq_iff_match s "debug" (by decide)
  have he : ToLower s = "error" ↔ caseInsensitiveMatch s "error" :=
    toLower_eq_iff_match s "error" (by decide)
  refine ⟨(parseLevel_eq_debug s).trans hd,
    (parseLevel_eq_info s).trans (toLower_info_iff s),
    (parseLevel_eq_error s).trans he, ?_, by decide, by decide, by decide, by decide⟩
  rintro ⟨h0, h1, h2⟩
  rw [← hd] at h0
  rw [← toLower_info_iff] at h1
  rw [← he] at h2
  simp [parseLevel, h0, h1, h2]

/-- C7, amended, at "DeBuG" and "ERROR", which match, and at " Debug", which matches
nothing, so the call fails and names the string. -/
theorem parseLevel_case_insensitive_witness :
    parseLevel "DeBuG" = (DebugLevel, none) ∧ parseLevel "ERROR" = (ErrorLevel, none) ∧
    parseLevel " Debug" = (0, some (Err.notValidLevel " Debug")) :=
  ⟨(parseLevel_case_insensitive "DeBuG").1.mpr (by decide),
   (parseLevel_case_insensitive "ERROR").2.2.1.mpr (by decide),
   (parseLevel_case_insensitive " Debug").2.2.2.1
    ⟨by decide,
     fun h => h.elim (fun h1 => absurd h1 (by decide))
       (fun ⟨_, ht, _⟩ => absurd (congrArg String.data ht) (by simp)),
     by decide⟩⟩

/-! ## Store and map lemmas -/

@[simp] theorem cellSet_cell_same (r : Nat) (k : String) (v : Value) (w : World) :
    (cellSet r k v w).cell r = (w.cell r).insert k v := by
  simp [cellSet, World.store]

@[simp] theorem cellSet_cell_other {a r : Nat} (h : a ≠ r) (k : String) (v : Value)
    (w : World) : (cellSet r k v w).cell a = w.cell a := by
  simp [cellSet, World.store, h]

@[simp] theorem cellSet_written (r : Nat) (k : String) (v : Value) (w : World) :
    (cellSet r k v w).written = w.written := rfl

@[simp] theorem cellSet_printed (r : Nat) (k : String) (v : Value) (w : World) :
    (cellSet r k v w).printed = w.printed := rfl

@[simp] theorem cellSet_Destination (r : Nat) (k : String) (v : Value) (w : World) :
    (cellSet r k v w).Destination = w.Destination := rfl

@[simp] theorem cellSet_appLogLevel (r : Nat) (k : String) (v : Value) (w : World) :
    (cellSet r k v w).appLogLevel = w.appLogLevel := rfl

@[simp] theorem cellSet_appVersion (r : Nat) (k : String) (v : Value) (w : World) :
    (cellSet r k v w).appVersion = w.appVersion := rfl

@[simp] theorem cellSet_fieldsPool (r : Nat) (k : String) (v : Value) (w : World) :
    (cellSet r k v w).fieldsPool = w.fieldsPool := rfl

@[simp] theorem cellSet_next (r : Nat) (k : String) (v : Value) (w : World) :
    (cellSet r k v w).next = w.next := rfl

theorem mapIndex_cellSet_same (r : Nat) (k : String) (v : Value) (w : World) :
    mapIndex (cellSet r k v w) (some r) k = some v := by
  simp [mapIndex, contents]

theorem mapIndex_cellSet_other {k k' : String} (h : k' ≠ k) (r : Nat) (v : Value)
    (w : World) : mapIndex (cellSet r k v w) (some r) k' = mapIndex w (some r) k' := by
  simp [mapIndex, contents, AList.lookup_insert_ne h]

theorem mapIndex_cellSet_other_cell {a r : Nat} (h : a ≠ r) (k k' : String) (v : Value)
    (w : World) : mapIndex (cellSet r k v w) (some a) k' = mapIndex w (some a) k' := by
  simp [mapIndex, contents, h]

/-! ## Configuration: proofs -/

/-- C3, counterexample: with LogLevel "Debug" the minimum severity becomes Info, not Debug,
and with LogLevel "Error" it becomes Info, not Error. -/
theorem configYawhg_short_names_counterexample :
    (ConfigYawhg { AppVersion := "1", Enabled := true, LogLevel := "Debug" } init).appLogLevel
        ≠ DebugLevel ∧
    (ConfigYawhg { AppVersion := "1", Enabled := true, LogLevel := "Error" } init).appLogLevel
        ≠ ErrorLevel := by
  decide

/-- C3, amended: `ConfigYawhg` with LogLevel "DebugLevel" sets the minimum severity to Debug,
with "InfoLevel" to Info, with "ErrorLevel" to Error, and with any other string (the names
"Debug", "Info" and "Error" among them) to Info. -/
theorem configYawhg_level_names (o : Options) (w : World) :
    (o.LogLevel = "DebugLevel" → (ConfigYawhg o w).appLogLevel = DebugLevel) ∧
    (o.LogLevel = "InfoLevel" → (ConfigYawhg o w).appLogLevel = InfoLevel) ∧
    (o.LogLevel = "ErrorLevel" → (ConfigYawhg o w).appLogLevel = ErrorLevel) ∧
    ((o.LogLevel ≠ "DebugLevel" ∧ o.LogLevel ≠ "InfoLevel" ∧ o.LogLevel ≠ "ErrorLevel") →
      (ConfigYawhg o w).appLogLevel = InfoLevel) ∧
    ((o.LogLevel = "Debug" ∨ o.LogLevel = "Info" ∨ o.LogLevel = "Error") →
      (ConfigYawhg o w).appLogLevel = InfoLevel) := by
  refine ⟨?_, ?_, ?_, ?_, ?_⟩
  · intro h; simp [ConfigYawhg, h]
  · intro h; simp [ConfigYawhg, h]
  · intro h; simp [ConfigYawhg, h]
  · rintro ⟨h0, h1, h2⟩; simp [ConfigYawhg, h0, h1, h2]
  · rintro (h | h | h) <;> simp [ConfigYawhg, h]

/-- C3, amended, at LogLevel "DebugLevel" and at LogLevel "Error". -/
theorem configYawhg_level_names_witness :
    (ConfigYawhg { AppVersion := "1", Enabled := true, LogLevel := "DebugLevel" }
        init).appLogLevel = DebugLevel ∧
    (ConfigYawhg { AppVersion := "1", Enabled := true, LogLevel := "Error" }
        init).appLogLevel = InfoLevel :=
  ⟨(configYawhg_level_names
      { AppVersion := "1", Enabled := true, LogLevel := "DebugLevel" } init).1 rfl,
   (configYawhg_level_names
      { AppVersion := "1", Enabled := true, LogLevel := "Error" } init).2.2.2.2
      (Or.inr (Or.inr rfl))⟩

/-! ## Error aggregation: proofs -/

theorem errStringsLoop_eq (acc : List String) (errors : List (Option String)) :
    errStringsLoop acc errors = acc ++ errors.filterMap id := by
  induction errors generalizing acc with
  | nil => simp [errStringsLoop]
  | cons e rest ih =>
    cases e with
    | none => simp [errStringsLoop, ih]
    | some x => simp [errStringsLoop, ih]

theorem addErrors_of_none (f : Fields) (errors : List (Option String)) (w : World)
    (h : errors.filterMap id = []) : addErrors f errors w = .ok w := by
  unfold addErrors
  simp [errStringsLoop_eq, h]

theorem addErrors_of_some (r : Nat) (errors : List (Option String)) (w : World)
    (h : errors.filterMap id ≠ []) :
    addErrors (some r) errors w =
      .ok (cellSet r "Error" (Value.str (String.intercalate ", " (errors.filterMap id))) w) := by
  unfold addErrors
  have h1 : errors ≠ [] := by
    rintro rfl; simp at h
  have h2 : 0 < errors.length := List.length_pos.mpr h1
  have h3 : 0 < (errors.filterMap id).length := List.length_pos.mpr h
  simp [errStringsLoop_eq, h2, h3, mapAssign]

/-- C4, counterexample: on the nil FieldSet with a non-nil error `addErrors` panics
(assignment to entry in nil map) instead of storing the text under Error. -/
theorem addErrors_nil_counterexample :
    addErrors none [some "foop"] init = .error Panic.nilMapAssign := by
  rfl

/-- C4, amended: for every non-nil FieldSet `f` and every list of nullable errors, if some
error is non-nil then afterwards `f["Error"]` is the texts of the non-nil errors, in order,
joined with ", "; if none is (also for a nil `f`) nothing changes; no key other than Error
and no other map is changed. -/
theorem addErrors_aggregates (f : Fields) (errors : List (Option String)) (w : World) :
    (errors.filterMap id = [] → addErrors f errors w = .ok w) ∧
    (∀ r, f = some r → ∃ w', addErrors f errors w = .ok w' ∧
      (errors.filterMap id ≠ [] →
        mapIndex w' f "Error" =
          some (Value.str (String.intercalate ", " (errors.filterMap id)))) ∧
      (∀ k, k ≠ "Error" → mapIndex w' f k = mapIndex w f k) ∧
      (∀ a, a ≠ r → w'.cell a = w.cell a)) := by
  refine ⟨addErrors_of_none f errors w, ?_⟩
  rintro r rfl
  by_cases h : errors.filterMap id = []
  · exact ⟨w, addErrors_of_none _ errors w h, fun h2 => absurd h h2, fun _ _ => rfl,
      fun _ _ => rfl⟩
  · refine ⟨_, addErrors_of_some r errors w h, fun _ => mapIndex_cellSet_same _ _ _ _, ?_, ?_⟩
    · intro k hk
      exact mapIndex_cellSet_other hk _ _ _
    · intro a ha
      exact cellSet_cell_other ha _ _ _

/-- C4, amended, at the errors `[nil, foop, nil, blarg]` on the map `"Test": "Foo"`: Error
becomes "foop, blarg" and Test is kept; at `[nil, nil]` nothing changes. -/
theorem addErrors_aggregates_witness :
    (∃ w', addErrors (some 0) [none, some "foop", none, some "blarg"] exampleWorld = .ok w' ∧
      mapIndex w' (some 0) "Error" = some (Value.str "foop, blarg") ∧
      mapIndex w' (some 0) "Test" = some (Value.str "Foo")) ∧
    addErrors (some 0) [none, none] exampleWorld = .ok exampleWorld := by
  refine ⟨?_, (addErrors_aggregates (some 0) [none, none] exampleWorld).1 rfl⟩
  obtain ⟨w', h1, h2, h3, _⟩ :=
    (addErrors_aggregates (some 0) [none, some "foop", none, some "blarg"] exampleWorld).2 0 rfl
  refine ⟨w', h1, ?_, ?_⟩
  · rw [h2 (by simp)]; rfl
  · rw [h3 "Test" (by decide)]; rfl

/-! ## WithFields and WithTracing: proofs -/

/-- C2, the code at a failing input: on the caller's map `"Test": "Foo"` (no Error key) and
the error `foop`, both `WithFields` and `WithTracing` return normally and leave the caller's
own map with `Error = "foop"`. -/
theorem withFields_mutates_details :
    mapIndex exampleWorld (some 0) "Error" = none ∧
    (∃ data w', WithFields (some 0) [some "foop"] exampleWorld = .ok (data, w') ∧
      mapIndex w' (some 0) "Error" = some (Value.str "foop")) ∧
    (∃ data w', WithTracing Background (some 0) [some "foop"] (NewV4Result.ok "id")
        exampleWorld = .ok (data, w') ∧
      mapIndex w' (some 0) "Error" = some (Value.str "foop")) :=
  ⟨rfl, ⟨_, _, rfl, rfl⟩, ⟨_, _, rfl, rfl⟩⟩

/-! ## Copy: proofs -/

theorem copyLoop_cell_other {a dst : Nat} (h : a ≠ dst)
    (es : List (Sigma fun _ : String => Value)) (w : World) :
    (copyLoop dst es w).cell a = w.cell a := by
  induction es generalizing w with
  | nil => rfl
  | cons e rest ih =>
    obtain ⟨k, v⟩ := e
    simp [copyLoop, ih, h]

theorem copyLoop_lookup (dst : Nat) (k : String)
    (es : List (Sigma fun _ : String => Value)) (hes : es.NodupKeys) (w : World) :
    ((copyLoop dst es w).cell dst).lookup k =
      (match es.dlookup k with
        | some v => some v
        | none => (w.cell dst).lookup k) := by
  induction es generalizing w with
  | nil => simp [copyLoop]
  | cons e rest ih =>
    obtain ⟨k', v⟩ := e
    have hk' : k' ∉ rest.keys := List.not_mem_keys_of_nodupKeys_cons hes
    have hrest : rest.NodupKeys := (List.nodupKeys_cons.mp hes).2
    simp only [copyLoop]
    rw [ih hrest]
    by_cases hkk : k = k'
    · subst hkk
      rw [List.dlookup_eq_none.mpr hk', List.dlookup_cons_eq]
      simp
    · have hd : List.dlookup k ((⟨k', v⟩ : Sigma fun _ : String => Value) :: rest) =
          List.dlookup k rest := List.dlookup_cons_ne _ _ hkk
      rw [hd]
      simp [AList.lookup_insert_ne hkk]

theorem copy_fst (f : Fields) (w : World) : (f.Copy w).1 = some w.next := rfl

theorem copy_cell_other (f : Fields) (w : World) {a : Nat} (h : a ≠ w.next) :
    (f.Copy w).2.cell a = w.cell a := by
  simp [Fields.Copy, alloc, copyLoop_cell_other h, World.store, h]

theorem copy_lookup (f : Fields) (w : World) (k : String) :
    mapIndex (f.Copy w).2 (some w.next) k = mapIndex w f k := by
  have h1 := copyLoop_lookup w.next k (contents w f).entries (contents w f).nodupKeys (alloc w).2
  have h2 : mapIndex (f.Copy w).2 (some w.next) k =
      ((copyLoop w.next (contents w f).entries (alloc w).2).cell w.next).lookup k := rfl
  have h3 : ((alloc w).2.cell w.next).lookup k = none := by
    simp [alloc, World.store]
  rw [h2, h1, h3]
  cases h : List.dlookup k (contents w f).entries <;> simp [mapIndex, AList.lookup, h]

theorem applyOps_cell_other {a r : Nat} (h : a ≠ r) (ops : List MapOp) (w : World) :
    (applyOps r ops w).cell a = w.cell a := by
  induction ops generalizing w with
  | nil => rfl
  | cons op rest ih =>
    cases op with
    | assign k v => simp [applyOps, ih, h]
    | delete k => simp [applyOps, ih, mapDelete, World.store, h]

/-- C5: for every FieldSet `f` that exists in the store, `f.Copy()` is a new non-nil map
holding exactly the key/value pairs of `f`; any later insertions, overwrites and deletions
on the copy leave every key of `f` as it was, and any on `f` leave every key of the copy as
it was. -/
theorem copy_independent (f : Fields) (w : World) (hf : ∀ r, f = some r → r < w.next) :
    ∃ c, (f.Copy w).1 = some c ∧ some c ≠ f ∧
      (∀ k, mapIndex (f.Copy w).2 (some c) k = mapIndex w f k) ∧
      (∀ ops k, mapIndex (applyOps c ops (f.Copy w).2) f k = mapIndex w f k) ∧
      (∀ r, f = some r → ∀ ops k,
        mapIndex (applyOps r ops (f.Copy w).2) (some c) k = mapIndex w f k) := by
  have hne : ∀ r, f = some r → r ≠ w.next := fun r hr => Nat.ne_of_lt (hf r hr)
  refine ⟨w.next, rfl, ?_, copy_lookup f w, ?_, ?_⟩
  · intro h
    exact hne w.next h.symm rfl
  · intro ops k
    cases f with
    | none => rfl
    | some r =>
      have h1 : r ≠ w.next := hne r rfl
      simp only [mapIndex, contents]
      rw [applyOps_cell_other h1, copy_cell_other _ _ h1]
  · rintro r rfl ops k
    have h1 : w.next ≠ r := (hne r rfl).symm
    have h2 := copy_lookup (some r) w k
    simp only [mapIndex, contents] at h2 ⊢
    rw [applyOps_cell_other h1, h2]

/-- C5 on the map `"Test": "Foo"`: the copy holds Test, and overwriting Test and adding a
key on the copy, or deleting Test from the original, does not show in the other map. -/
theorem copy_independent_witness :
    ∃ c, (Fields.Copy (some 0) exampleWorld).1 = some c ∧
      mapIndex (Fields.Copy (some 0) exampleWorld).2 (some c) "Test" = some (Value.str "Foo") ∧
      mapIndex (applyOps c [MapOp.assign "Test" (Value.int 1), MapOp.assign "k" Value.null]
        (Fields.Copy (some 0) exampleWorld).2) (some 0) "Test" = some (Value.str "Foo") ∧
      mapIndex (applyOps 0 [MapOp.delete "Test"]
        (Fields.Copy (some 0) exampleWorld).2) (some c) "Test" = some (Value.str "Foo") := by
  obtain ⟨c, h1, _, h3, h4, h5⟩ :=
    copy_independent (some 0) exampleWorld (by intro r hr; cases hr; decide)
  exact ⟨c, h1, (h3 "Test").trans rfl, (h4 _ "Test").trans rfl, (h5 0 rfl _ "Test").trans rfl⟩

/-! ## The gate: proofs -/

theorem addBaseFields_some (r : Nat) (now : String) (w : World) :
    Fields.addBaseFields (some r) now w =
      .ok (cellSet r "v" (Value.str w.appVersion) (cellSet r "time" (Value.str now) w)) := rfl

theorem gateLevel_fst (f : Fields) (w : World) : (gateLevel f w).1 = resolvedLevel w f := by
  unfold gateLevel resolvedLevel Fields.checkSeverityLevel resolveString
  cases h : mapIndex w f "severity" with
  | none => rfl
  | some v =>
    cases v with
    | str s =>
      simp only []
      rcases hp : parseLevel s with ⟨lvl, _ | e⟩ <;> rfl
    | int n => rfl
    | bool b => rfl
    | null => rfl
    | chan c => rfl

theorem gateLevel_snd (f : Fields) (w : World) :
    (gateLevel f w).2 = w ∨ ∃ d, (gateLevel f w).2 = w.printf d := by
  unfold gateLevel
  rcases h : Fields.checkSeverityLevel f w with ⟨lvl, _ | e⟩
  · exact Or.inl rfl
  · exact Or.inr ⟨_, rfl⟩

@[simp] theorem gateLevel_written (f : Fields) (w : World) :
    (gateLevel f w).2.written = w.written := by
  rcases gateLevel_snd f w with h | ⟨d, h⟩ <;> (rw [h]; try rfl)

@[simp] theorem gateLevel_cell (f : Fields) (w : World) :
    (gateLevel f w).2.cell = w.cell := by
  rcases gateLevel_snd f w with h | ⟨d, h⟩ <;> (rw [h]; try rfl)

@[simp] theorem gateLevel_Destination (f : Fields) (w : World) :
    (gateLevel f w).2.Destination = w.Destination := by
  rcases gateLevel_snd f w with h | ⟨d, h⟩ <;> (rw [h]; try rfl)

@[simp] theorem gateLevel_appLogLevel (f : Fields) (w : World) :
    (gateLevel f w).2.appLogLevel = w.appLogLevel := by
  rcases gateLevel_snd f w with h | ⟨d, h⟩ <;> (rw [h]; try rfl)

theorem fire_written_of_encodable (f : Fields) (w : World)
    (h : (contents w f).encodable = true) :
    (Fields.fire f w).written = w.written ++ [(w.Destination, contents w f)] := by
  unfold Fields.fire
  simp only [h, if_true]
  split <;> rfl

theorem fire_written_of_not_encodable (f : Fields) (w : World)
    (h : (contents w f).encodable = false) : (Fields.fire f w).written = w.written := by
  unfold Fields.fire
  simp [h, World.printf]

@[simp] theorem fire_cell (f : Fields) (w : World) : (Fields.fire f w).cell = w.cell := by
  unfold Fields.fire
  simp only []
  split_ifs <;> rfl

theorem encodable_insert (m : Entries) (k : String) (v : Value) (hm : m.encodable = true)
    (hv : v.encodable = true) : Entries.encodable (m.insert k v) = true := by
  unfold Entries.encodable at hm ⊢
  rw [AList.insert_entries, List.all_cons, hv, Bool.true_and]
  rw [List.all_eq_true] at hm ⊢
  intro e he
  exact hm e ((List.kerase_sublist k m.entries).subset he)

theorem structuredWrap_some (r : Nat) (now : String) (w : World) :
    structuredWrap (some r) now w =
      .ok (if (gateLevel (some r)
                (cellSet r "v" (Value.str w.appVersion)
                  (cellSet r "time" (Value.str now) w))).1 ≥ w.appLogLevel
          then Fields.fire (some r) (gateLevel (some r)
                (cellSet r "v" (Value.str w.appVersion)
                  (cellSet r "time" (Value.str now) w))).2
          else (gateLevel (some r)
                (cellSet r "v" (Value.str w.appVersion)
                  (cellSet r "time" (Value.str now) w))).2) := by
  unfold structuredWrap
  rw [addBaseFields_some]
  simp only [bind, Except.bind, pure, Except.pure, gateLevel_appLogLevel,
    cellSet_appLogLevel]
  split <;> rfl

theorem resolvedLevel_congr {w w1 : World} {f : Fields}
    (h : mapIndex w1 f "severity" = mapIndex w f "severity") :
    resolvedLevel w1 f = resolvedLevel w f := by
  unfold resolvedLevel
  rw [h]

theorem resetLoop_written (f : Fields) (ks : List String) (w : World) :
    (resetLoop f ks w).written = w.written := by
  induction ks generalizing w with
  | nil => rfl
  | cons k rest ih =>
    simp only [resetLoop]
    rw [ih]
    cases f <;> rfl

/-- The map `textWrap` fills: the pooled instance after the five assignments. -/
theorem textWrap_eq (ctx : Context) (msg level : String) (newV4 : NewV4Result)
    (now : String) (w : World) :
    textWrap ctx msg level newV4 now w =
      .ok (poolPut (poolGet w).1 (Fields.resetWrapper (some (poolGet w).1)
        (if (gateLevel (some (poolGet w).1)
              (cellSet (poolGet w).1 requestIDKey (Value.str (FromContext ctx newV4).2)
                (cellSet (poolGet w).1 "v" (Value.str (poolGet w).2.appVersion)
                  (cellSet (poolGet w).1 "time" (Value.str now)
                    (cellSet (poolGet w).1 "msg" (Value.str msg)
                      (cellSet (poolGet w).1 "severity" (Value.str level)
                        (poolGet w).2)))))).1 ≥ (poolGet w).2.appLogLevel
         then Fields.fire (some (poolGet w).1) (gateLevel (some (poolGet w).1)
              (cellSet (poolGet w).1 requestIDKey (Value.str (FromContext ctx newV4).2)
                (cellSet (poolGet w).1 "v" (Value.str (poolGet w).2.appVersion)
                  (cellSet (poolGet w).1 "time" (Value.str now)
                    (cellSet (poolGet w).1 "msg" (Value.str msg)
                      (cellSet (poolGet w).1 "severity" (Value.str level)
                        (poolGet w).2)))))).2
         else (gateLevel (some (poolGet w).1)
              (cellSet (poolGet w).1 requestIDKey (Value.str (FromContext ctx newV4).2)
                (cellSet (poolGet w).1 "v" (Value.str (poolGet w).2.appVersion)
                  (cellSet (poolGet w).1 "time" (Value.str now)
                    (cellSet (poolGet w).1 "msg" (Value.str msg)
                      (cellSet (poolGet w).1 "severity" (Value.str level)
                        (poolGet w).2)))))).2))) := by
  unfold textWrap
  simp only [bind, Except.bind, pure, Except.pure, mapAssign, Fields.addBaseFields,
    Fields.addTracing, gateLevel_appLogLevel, cellSet_appLogLevel, cellSet_appVersion]

theorem poolGet_written (w : World) : (poolGet w).2.written = w.written := by
  unfold poolGet; split <;> rfl

theorem poolGet_Destination (w : World) : (poolGet w).2.Destination = w.Destination := by
  unfold poolGet; split <;> rfl

theorem poolGet_appLogLevel (w : World) : (poolGet w).2.appLogLevel = w.appLogLevel := by
  unfold poolGet; split <;> rfl

theorem poolGet_cell_of_clean (w : World) (h : PoolClean w) :
    (poolGet w).2.cell (poolGet w).1 = ∅ := by
  unfold poolGet
  split
  · rename_i r rest hr
    exact (h.1 r (by rw [hr]; exact List.mem_cons_self _ _)).2
  · simp [alloc, World.store]

/-- C1, counterexample: the map holds severity "error" and a channel, the minimum severity
is Info; the level passes the gate, yet `structuredWrap` returns with no record written. On
the nil map `structuredWrap` panics at its first assignment. -/
theorem gate_unencodable_counterexample :
    (resolvedLevel unencodableWorld (some 0) ≥ unencodableWorld.appLogLevel ∧
      writtenOf (structuredWrap (some 0) "t" unencodableWorld) = some []) ∧
    structuredWrap none "t" init = .error Panic.nilMapAssign :=
  ⟨by decide, rfl⟩

/-- C1, amended: for every non-nil FieldSet `f` and every minimum severity `m`, with `L` the
level parsed from `f["severity"]` or Info when that is absent, not a string or unparseable,
`structuredWrap` returns and writes nothing when `L < m`, and, when `L ≥ m` and every value
of `f` is JSON-encodable, writes exactly one record, the stamped map, to the destination.
`textWrap` returns and writes nothing when the level of its severity string is below `m`,
and otherwise, the pool holding only empty instances, writes exactly one record, which
carries that severity string and the message. -/
theorem gate_is_rank_comparison (r : Nat) (now : String) (w : World) (ctx : Context)
    (msg level : String) (newV4 : NewV4Result) :
    (∃ w', structuredWrap (some r) now w = .ok w' ∧
      (resolvedLevel w (some r) < w.appLogLevel → w'.written = w.written) ∧
      (resolvedLevel w (some r) ≥ w.appLogLevel → (w.cell r).encodable = true →
        w'.written = w.written ++ [(w.Destination, w'.cell r)])) ∧
    (∃ w', textWrap ctx msg level newV4 now w = .ok w' ∧
      (resolveString level < w.appLogLevel → w'.written = w.written) ∧
      (resolveString level ≥ w.appLogLevel → PoolClean w → ∃ record : Entries,
        w'.written = w.written ++ [(w.Destination, record)] ∧
        record.lookup "severity" = some (Value.str level) ∧
        record.lookup "msg" = some (Value.str msg))) := by
  constructor
  · refine ⟨_, structuredWrap_some r now w, ?_, ?_⟩
    · intro hlt
      rw [gateLevel_fst, resolvedLevel_congr (w := w)] 
      · rw [if_neg (not_le.mpr hlt)]
        simp
      · rw [mapIndex_cellSet_other (by decide), mapIndex_cellSet_other (by decide)]
    · intro hge henc
      rw [gateLevel_fst, resolvedLevel_congr (w := w)]
      · rw [if_pos hge, fire_written_of_encodable]
        · simp [contents]
        · simp only [contents, gateLevel_cell, cellSet_cell_same]
          exact encodable_insert _ _ _ (encodable_insert _ _ _ henc rfl) rfl
      · rw [mapIndex_cellSet_other (by decide), mapIndex_cellSet_other (by decide)]
  · refine ⟨_, textWrap_eq ctx msg level newV4 now w, ?_, ?_⟩
    · intro hlt
      have hL : resolvedLevel
          (cellSet (poolGet w).1 requestIDKey (Value.str (FromContext ctx newV4).2)
            (cellSet (poolGet w).1 "v" (Value.str (poolGet w).2.appVersion)
              (cellSet (poolGet w).1 "time" (Value.str now)
                (cellSet (poolGet w).1 "msg" (Value.str msg)
                  (cellSet (poolGet w).1 "severity" (Value.str level) (poolGet w).2)))))
          (some (poolGet w).1) = resolveString level := by
        unfold resolvedLevel
        rw [mapIndex_cellSet_other (by decide), mapIndex_cellSet_other (by decide),
          mapIndex_cellSet_other (by decide), mapIndex_cellSet_other (by decide),
          mapIndex_cellSet_same]
      rw [gateLevel_fst, hL, poolGet_appLogLevel, if_neg (not_le.mpr hlt)]
      simp [poolPut, Fields.resetWrapper, resetLoop_written, poolGet_written]
    · intro hge hclean
      have hL : resolvedLevel
          (cellSet (poolGet w).1 requestIDKey (Value.str (FromContext ctx newV4).2)
            (cellSet (poolGet w).1 "v" (Value.str (poolGet w).2.appVersion)
              (cellSet (poolGet w).1 "time" (Value.str now)
                (cellSet (poolGet w).1 "msg" (Value.str msg)
                  (cellSet (poolGet w).1 "severity" (Value.str level) (poolGet w).2)))))
          (some (poolGet w).1) = resolveString level := by
        unfold resolvedLevel
        rw [mapIndex_cellSet_other (by decide), mapIndex_cellSet_other (by decide),
          mapIndex_cellSet_other (by decide), mapIndex_cellSet_other (by decide),
          mapIndex_cellSet_same]
      rw [gateLevel_fst, hL, poolGet_appLogLevel, if_pos hge]
      have hempty := poolGet_cell_of_clean w hclean
      refine ⟨(cellSet (poolGet w).1 requestIDKey (Value.str (FromContext ctx newV4).2)
            (cellSet (poolGet w).1 "v" (Value.str (poolGet w).2.appVersion)
              (cellSet (poolGet w).1 "time" (Value.str now)
                (cellSet (poolGet w).1 "msg" (Value.str msg)
                  (cellSet (poolGet w).1 "severity" (Value.str level)
                    (poolGet w).2))))).cell (poolGet w).1, ?_, ?_, ?_⟩
      rotate_left
      · exact (mapIndex_cellSet_other (by decide) (poolGet w).1 _ _).trans
          ((mapIndex_cellSet_other (by decide) (poolGet w).1 _ _).trans
            ((mapIndex_cellSet_other (by decide) (poolGet w).1 _ _).trans
              ((mapIndex_cellSet_other (by decide) (poolGet w).1 _ _).trans
                (mapIndex_cellSet_same (poolGet w).1 "severity" (Value.str level)
                  (poolGet w).2))))
      · exact (mapIndex_cellSet_other (by decide) (poolGet w).1 _ _).trans
          ((mapIndex_cellSet_other (by decide) (poolGet w).1 _ _).trans
            ((mapIndex_cellSet_other (by decide) (poolGet w).1 _ _).trans
              (mapIndex_cellSet_same (poolGet w).1 "msg" (Value.str msg) _)))
      · simp only [poolPut, Fields.resetWrapper, resetLoop_written]
        rw [fire_written_of_encodable]
        · simp [contents, poolGet_written, poolGet_Destination]
        · simp only [contents, gateLevel_cell, cellSet_cell_same, hempty]
          exact encodable_insert _ _ _ (encodable_insert _ _ _ (encodable_insert _ _ _
            (encodable_insert _ _ _ (encodable_insert _ _ _ rfl rfl) rfl) rfl) rfl) rfl

/-- C1, amended, at three inputs: minimum Info and record severity "debug" writes nothing;
minimum Debug and record severity "info" writes one record; `textWrap` at "info" over the
initial world writes one record. -/
theorem gate_is_rank_comparison_witness :
    (∃ w', structuredWrap (some 0) "t" debugRecordWorld = .ok w' ∧
      w'.written = debugRecordWorld.written) ∧
    (∃ w', structuredWrap (some 0) "t" infoRecordWorld = .ok w' ∧
      w'.written = infoRecordWorld.written ++ [(infoRecordWorld.Destination, w'.cell 0)]) ∧
    (∃ w', textWrap Background "hello" "info" (NewV4Result.ok "id") "t" init = .ok w' ∧
      ∃ record : Entries, w'.written = init.written ++ [(init.Destination, record)] ∧
        record.lookup "severity" = some (Value.str "info") ∧
        record.lookup "msg" = some (Value.str "hello")) := by
  refine ⟨?_, ?_, ?_⟩
  · obtain ⟨⟨w', h1, h2, _⟩, _⟩ :=
      gate_is_rank_comparison 0 "t" debugRecordWorld Background "" "" (NewV4Result.ok "")
    exact ⟨w', h1, h2 (by decide)⟩
  · obtain ⟨⟨w', h1, _, h3⟩, _⟩ :=
      gate_is_rank_comparison 0 "t" infoRecordWorld Background "" "" (NewV4Result.ok "")
    exact ⟨w', h1, h3 (by decide) (by decide)⟩
  · obtain ⟨_, w', h1, _, h3⟩ :=
      gate_is_rank_comparison 0 "t" init Background "hello" "info" (NewV4Result.ok "id")
    exact ⟨w', h1, h3 (by decide) ⟨(by intro r hr; cases hr), List.nodup_nil⟩⟩

/-! ## Request ids: proofs -/

theorem MD.values_insert_same (md : MD) (k : String) (vs : List String) :
    MD.values (md.insert k vs) k = vs := by
  simp [MD.values, AList.lookup_insert]

theorem toLower_requestIDHeader : ToLower RequestIDHeader = RequestIDHeader := by decide

theorem addToContext_outgoing (ctx : Context) (requestID : String) :
    ∃ md : MD, (AddToContext ctx requestID).outgoing = some md ∧
      md.Get RequestIDHeader =
        (ctx.outgoing.getD ∅ : MD).Get RequestIDHeader ++ [requestID] :=
  ⟨_, rfl, by simp [MD.Get, MD.values_insert_same]⟩

theorem firstRequestID_eq_none {md : Option MD} (h : firstRequestID md = none) :
    (md.getD ∅ : MD).Get RequestIDHeader = [] := by
  cases md with
  | none => rfl
  | some m =>
    simp only [firstRequestID, List.head?_eq_none_iff] at h
    simpa using h

/-- C8: if the incoming metadata holds a value for x-request-id, `FromContext` returns the
same context and the first incoming value, whatever the outgoing metadata holds; if the
incoming metadata holds none and the outgoing metadata holds one, it returns the same
context and the first outgoing value; in both cases the result does not depend on what
`uuid.NewV4()` would return. -/
theorem fromContext_existing_id (ctx : Context) (newV4 : NewV4Result) (v : String)
    (rest : List String) :
    (∀ md : MD, ctx.incoming = some md → md.Get RequestIDHeader = v :: rest →
      FromContext ctx newV4 = (ctx, v)) ∧
    (∀ md : MD, (∀ mi : MD, ctx.incoming = some mi → mi.Get RequestIDHeader = []) →
      ctx.outgoing = some md → md.Get RequestIDHeader = v :: rest →
      FromContext ctx newV4 = (ctx, v)) := by
  constructor
  · intro md hmd hv
    simp [FromContext, firstRequestID, hmd, hv]
  · intro md hin hmd hv
    have h1 : firstRequestID ctx.incoming = none := by
      cases hi : ctx.incoming with
      | none => rfl
      | some mi => simp [firstRequestID, hin mi hi]
    unfold FromContext
    rw [h1]
    simp [firstRequestID, hmd, hv]

/-- C8 on a context holding both an incoming and an outgoing id, and on one holding only an
outgoing id. -/
theorem fromContext_existing_id_witness :
    FromContext bothContext (NewV4Result.ok "fresh") = (bothContext, "abc-123") ∧
    FromContext outgoingContext (NewV4Result.ok "fresh") = (outgoingContext, "out-1") :=
  ⟨(fromContext_existing_id bothContext (NewV4Result.ok "fresh") "abc-123" ["second"]).1
      _ rfl rfl,
   (fromContext_existing_id outgoingContext (NewV4Result.ok "fresh") "out-1" []).2
      _ (by intro mi hi; cases hi) rfl rfl⟩

/-- C9: on a context with no incoming and no outgoing x-request-id, `FromContext` returns
the id `uuid.NewV4()` produced and the context derived with `AddToContext`, whose outgoing
metadata holds exactly that id under x-request-id; `FromContext` on the returned context
returns that context and the same id, whatever `uuid.NewV4()` would return then. -/
theorem fromContext_idempotent (ctx : Context) (newV4 again : NewV4Result)
    (hin : firstRequestID ctx.incoming = none) (hout : firstRequestID ctx.outgoing = none) :
    FromContext ctx newV4 = (AddToContext ctx newV4.String, newV4.String) ∧
    (∃ md : MD, (FromContext ctx newV4).1.outgoing = some md ∧
      md.Get RequestIDHeader = [newV4.String]) ∧
    (FromContext ctx newV4).1.incoming = ctx.incoming ∧
    FromContext (FromContext ctx newV4).1 again = ((FromContext ctx newV4).1, newV4.String) := by
  have h1 : FromContext ctx newV4 = (AddToContext ctx newV4.String, newV4.String) := by
    simp [FromContext, hin, hout]
  obtain ⟨md, hmd, hget⟩ := addToContext_outgoing ctx newV4.String
  rw [firstRequestID_eq_none hout, List.nil_append] at hget
  have h2 : (AddToContext ctx newV4.String).incoming = ctx.incoming := rfl
  refine ⟨h1, ?_, ?_, ?_⟩
  · rw [h1]; exact ⟨md, hmd, hget⟩
  · rw [h1]; exact h2
  · rw [h1]
    unfold FromContext
    rw [h2, hin]
    simp [hmd, firstRequestID, hget]

/-- C9 on the background context with the generated id `id-1`. -/
theorem fromContext_idempotent_witness :
    (FromContext Background (NewV4Result.ok "id-1")).2 = "id-1" ∧
    FromContext (FromContext Background (NewV4Result.ok "id-1")).1 (NewV4Result.ok "id-2") =
      ((FromContext Background (NewV4Result.ok "id-1")).1, "id-1") :=
  have h := fromContext_idempotent Background (NewV4Result.ok "id-1") (NewV4Result.ok "id-2")
    rfl rfl
  ⟨by rw [h.1]; rfl, h.2.2.2⟩

/-! ## Middleware: proofs -/

theorem utf8Bytes_length_pos (c : Char) : 0 < (utf8Bytes c).length := by
  unfold utf8Bytes
  split_ifs <;> simp

theorem string_eq_empty_of_len {s : String} (h : len s = 0) : s = "" := by
  obtain ⟨l⟩ := s
  cases l with
  | nil => rfl
  | cons c cs =>
    have hc := utf8Bytes_length_pos c
    simp only [len, runeBytes, List.length_append] at h
    omega

/-- The slice holds the first `n` bytes of the string. -/
theorem sliceRunes_bytes (cs : List Char) :
    ∀ n, runeBytes (sliceRunes cs n).1 ++ (sliceRunes cs n).2 = (runeBytes cs).take n := by
  induction cs with
  | nil => intro n; simp [sliceRunes, runeBytes]
  | cons c cs ih =>
    intro n
    unfold sliceRunes
    split_ifs with h
    · simp only [runeBytes, List.append_assoc, ih]
      rw [List.take_append_eq_append_take, List.take_of_length_le h]
    · simp only [runeBytes, List.nil_append]
      rw [List.take_append_of_le_length (by omega)]

theorem sliceTo_bytes (s : String) (n : Nat) :
    (sliceTo s n).bytes = (runeBytes s.data).take n :=
  sliceRunes_bytes s.data n

/-- On runes of one byte each, bytes are runes. -/
theorem runeBytes_length_ascii (cs : List Char) (h : ∀ c ∈ cs, c.toNat < 128) :
    (runeBytes cs).length = cs.length := by
  induction cs with
  | nil => rfl
  | cons c cs ih =>
    have hc : c.toNat < 128 := h c (List.mem_cons_self c cs)
    simp only [runeBytes, List.length_append, List.length_cons,
      ih (fun d hd => h d (List.mem_cons_of_mem c hd))]
    simp [utf8Bytes, hc]
    omega

theorem sliceRunes_ascii (cs : List Char) (h : ∀ c ∈ cs, c.toNat < 128) :
    ∀ n, sliceRunes cs n = (cs.take n, []) := by
  induction cs with
  | nil => intro n; simp [sliceRunes]
  | cons c cs ih =>
    intro n
    have hc : c.toNat < 128 := h c (List.mem_cons_self c cs)
    have hl : (utf8Bytes c).length = 1 := by simp [utf8Bytes, hc]
    unfold sliceRunes
    rw [hl, ih (fun d hd => h d (List.mem_cons_of_mem c hd))]
    cases n with
    | zero => simp
    | succ m => simp

theorem headerGet_headerSet (md : MD) (k v : String) :
    headerGet (some (md.insert (CanonicalMIMEHeaderKey k) [v])) k = v := by
  simp [headerGet, MD.values_insert_same]

/-- The request passed on for the request id `id`, the header map being `md`. -/
theorem httpTrace_of_header (r : Request) (md : MD) (hH : r.Header = some md)
    (g g' : NewV4Result) (now : String) (w : World) (hne : len (FromHeader r) ≠ 0) :
    HTTPTraceMiddleware r g g' now w =
      .ok (if len (FromHeader r) > 36 then
          (match (sliceTo (FromHeader r) 36).rest with
            | [] => Forwarded.request
                { Header := some (md.insert (CanonicalMIMEHeaderKey RequestIDHeader)
                    [(sliceTo (FromHeader r) 36).runes]),
                  ctx := AddToContext r.ctx (sliceTo (FromHeader r) 36).runes }
            | _ :: _ => Forwarded.cutID r (sliceTo (FromHeader r) 36))
        else Forwarded.request
          { Header := some (md.insert (CanonicalMIMEHeaderKey RequestIDHeader)
              [FromHeader r]),
            ctx := AddToContext r.ctx (FromHeader r) }, w) := by
  obtain ⟨hdr, ctx⟩ := r
  simp only at hH
  subst hH
  unfold HTTPTraceMiddleware
  unfold FromHeader at hne ⊢
  simp only [hne, if_false]
  by_cases h36 : len (headerGet (some md) RequestIDHeader) > 36
  · simp only [h36, if_true]
    cases hrest : (sliceTo (headerGet (some md) RequestIDHeader) 36).rest with
    | nil => simp [hrest, AddToHeader, headerSet, bind, Except.bind, pure, Except.pure]
    | cons b bs => simp [hrest, headerSet, bind, Except.bind, pure, Except.pure]
  · simp [h36, GoString.text, AddToHeader, headerSet, bind, Except.bind, pure, Except.pure]

/-- The bytes of the request id passed on: the header value, cut to 36 bytes. -/
theorem httpTrace_requestID (r : Request) (md : MD) :
    (if len (FromHeader r) > 36 then
      (match (sliceTo (FromHeader r) 36).rest with
        | [] => Forwarded.request
            { Header := some (md.insert (CanonicalMIMEHeaderKey RequestIDHeader)
                [(sliceTo (FromHeader r) 36).runes]),
              ctx := AddToContext r.ctx (sliceTo (FromHeader r) 36).runes }
        | _ :: _ => Forwarded.cutID r (sliceTo (FromHeader r) 36))
    else Forwarded.request
      { Header := some (md.insert (CanonicalMIMEHeaderKey RequestIDHeader)
          [FromHeader r]),
        ctx := AddToContext r.ctx (FromHeader r) }).requestID =
      (runeBytes (FromHeader r).data).take 36 := by
  by_cases h36 : len (FromHeader r) > 36
  · rw [if_pos h36, ← sliceTo_bytes]
    cases hrest : (sliceTo (FromHeader r) 36).rest with
    | nil =>
      unfold FromHeader at hrest
      simp only [Forwarded.requestID, FromHeader, headerGet_headerSet, GoString.bytes, hrest,
        List.append_nil]
    | cons b bs => simp only [Forwarded.requestID]
  · rw [if_neg h36]
    simp only [Forwarded.requestID, FromHeader, headerGet_headerSet]
    rw [List.take_of_length_le]
    unfold len FromHeader at h36
    omega

/-- C10, counterexample: a header value of 20 characters, each the two-byte rune é, has
at most 36 characters, yet the middleware does not pass it on unchanged: it has 40 bytes,
and the request passed on carries its first 36 bytes, 18 characters. -/
theorem httpTrace_characters_counterexample :
    (FromHeader (requestWith "éééééééééééééééééééé")).length = 20 ∧
    ∃ fwd, HTTPTraceMiddleware (requestWith "éééééééééééééééééééé")
        (NewV4Result.ok "id-1") (NewV4Result.ok "id-2") "t" init =
          .ok (Forwarded.request fwd, init) ∧
      FromHeader fwd = "éééééééééééééééééé" ∧
      FromHeader fwd ≠ FromHeader (requestWith "éééééééééééééééééééé") :=
  ⟨by decide, _, rfl, by decide, by decide⟩

/-- C10, amended: for a request whose x-request-id header value `h` is non-empty, the
middleware passes on a request whose x-request-id is `h` when `h` has at most 36 bytes and
the first 36 bytes of `h` when it has more, so never more than 36 bytes; when every rune of
`h` is ASCII its bytes are its characters, and a longer `h` is passed on as its first 36
characters. The request passed on does not depend on what `uuid.NewV4()` returns and
nothing is logged. When the header is empty (the header map not nil) and `uuid.NewV4()`
succeeds, the id passed on is the generated one. -/
theorem httpTrace_normalises_header (r : Request) (newV4 newV4Log : NewV4Result)
    (now : String) (w : World) :
    (FromHeader r ≠ "" → ∃ fwd,
      (∀ g g' : NewV4Result, HTTPTraceMiddleware r g g' now w = .ok (fwd, w)) ∧
      (len (FromHeader r) ≤ 36 →
        ∃ r2, fwd = Forwarded.request r2 ∧ FromHeader r2 = FromHeader r) ∧
      (len (FromHeader r) > 36 →
        fwd.requestID = (runeBytes (FromHeader r).data).take 36) ∧
      fwd.requestID.length ≤ 36 ∧
      ((∀ c ∈ (FromHeader r).data, c.toNat < 128) →
        len (FromHeader r) = (FromHeader r).length ∧
        ((FromHeader r).length > 36 → ∃ r2, fwd = Forwarded.request r2 ∧
          FromHeader r2 = String.mk ((FromHeader r).data.take 36)))) ∧
    (FromHeader r = "" → r.Header ≠ none → newV4.err = none →
      ∃ fwd, HTTPTraceMiddleware r newV4 newV4Log now w = .ok (Forwarded.request fwd, w) ∧
        FromHeader fwd = newV4.String) := by
  constructor
  · intro hne
    have hlen : len (FromHeader r) ≠ 0 := fun h => hne (string_eq_empty_of_len h)
    cases hH : r.Header with
    | none => simp [FromHeader, headerGet, hH] at hne
    | some md =>
      refine ⟨_, fun g g' => httpTrace_of_header r md hH g g' now w hlen, ?_, ?_, ?_, ?_⟩
      · intro h36
        rw [if_neg (not_lt.mpr h36)]
        exact ⟨_, rfl, by simp only [FromHeader, headerGet_headerSet]⟩
      · intro _
        exact httpTrace_requestID r md
      · rw [httpTrace_requestID r md, List.length_take]
        omega
      · intro hascii
        have hl : len (FromHeader r) = (FromHeader r).length :=
          runeBytes_length_ascii _ hascii
        refine ⟨hl, fun h36 => ?_⟩
        rw [if_pos (by rw [hl]; exact h36)]
        have hs : sliceTo (FromHeader r) 36 =
            ⟨String.mk ((FromHeader r).data.take 36), []⟩ := by
          unfold sliceTo
          rw [sliceRunes_ascii _ hascii]
        rw [hs]
        exact ⟨_, rfl, by simp only [FromHeader, headerGet_headerSet]⟩
  · intro hempty hH herr
    cases hmd : r.Header with
    | none => exact absurd hmd hH
    | some md =>
      refine ⟨{ Header := some (md.insert (CanonicalMIMEHeaderKey RequestIDHeader)
          [newV4.String]), ctx := AddToContext r.ctx newV4.String }, ?_, ?_⟩
      · unfold HTTPTraceMiddleware
        unfold FromHeader at hempty
        rw [hmd] at hempty
        have h0 : len "" = 0 := rfl
        simp [hempty, h0, herr, GoString.text, AddToHeader, headerSet, hmd, bind,
          Except.bind, pure, Except.pure]
      · simp only [FromHeader, headerGet_headerSet]

/-- C10, amended, at a 50-character ASCII header value, which is cut to its first 36
characters, at an empty header with a generated id, and at 35 times a followed by é, 37
bytes, which is cut inside the é: its first byte, 195, is passed on. -/
theorem httpTrace_normalises_header_witness :
    (∃ fwd, HTTPTraceMiddleware
        (requestWith "0123456789abcdefghijklmnopqrstuvwxyzABCDEFGHIJKLMN")
        (NewV4Result.ok "id-1") (NewV4Result.ok "id-2") "t" init =
          .ok (Forwarded.request fwd, init) ∧
      FromHeader fwd = "0123456789abcdefghijklmnopqrstuvwxyz") ∧
    (∃ fwd, HTTPTraceMiddleware (requestWith "") (NewV4Result.ok "id-1")
        (NewV4Result.ok "id-2") "t" init = .ok (Forwarded.request fwd, init) ∧
      FromHeader fwd = "id-1") ∧
    (∃ fwd, HTTPTraceMiddleware (requestWith "aaaaaaaaaaaaaaaaaaaaaaaaaaaaaaaaaaaé")
        (NewV4Result.ok "id-1") (NewV4Result.ok "id-2") "t" init = .ok (fwd, init) ∧
      fwd.requestID = List.replicate 35 97 ++ [195]) := by
  refine ⟨?_, ?_, ?_⟩
  · obtain ⟨fwd, h1, _, _, _, h5⟩ :=
      (httpTrace_normalises_header
        (requestWith "0123456789abcdefghijklmnopqrstuvwxyzABCDEFGHIJKLMN")
        (NewV4Result.ok "id-1") (NewV4Result.ok "id-2") "t" init).1 (by decide)
    obtain ⟨r2, h6, h7⟩ := (h5 (by decide)).2 (by decide)
    subst h6
    exact ⟨r2, h1 _ _, h7.trans (by decide)⟩
  · exact (httpTrace_normalises_header (requestWith "") (NewV4Result.ok "id-1")
      (NewV4Result.ok "id-2") "t" init).2 (by decide) (by simp [requestWith]) rfl
  · obtain ⟨fwd, h1, _, h3, _⟩ :=
      (httpTrace_normalises_header (requestWith "aaaaaaaaaaaaaaaaaaaaaaaaaaaaaaaaaaaé")
        (NewV4Result.ok "id-1") (NewV4Result.ok "id-2") "t" init).1 (by decide)
    exact ⟨fwd, h1 _ _, (h3 (by decide)).trans (by decide)⟩

/-! ## Configuration, continued: proofs -/

/-- C17, the code at a failing input: after `ConfigYawhg` with Enabled false the
destination is the discard writer, and a following `ConfigYawhg` with Enabled true leaves
it there instead of setting standard output; only on the initial world does Enabled true
end on standard output. -/
theorem configYawhg_enabled_keeps_discard :
    (ConfigYawhg { AppVersion := "1", Enabled := false, LogLevel := "InfoLevel" }
      init).Destination = Writer.discard ∧
    (ConfigYawhg { AppVersion := "1", Enabled := true, LogLevel := "InfoLevel" }
      (ConfigYawhg { AppVersion := "1", Enabled := false, LogLevel := "InfoLevel" }
        init)).Destination = Writer.discard ∧
    (ConfigYawhg { AppVersion := "1", Enabled := true, LogLevel := "InfoLevel" }
      init).Destination = Writer.stdout := by
  decide

theorem configYawhg_appVersion (o : Options) (w : World) :
    (ConfigYawhg o w).appVersion = o.AppVersion := by
  unfold ConfigYawhg
  simp only []
  split_ifs <;> rfl

/-- C18: for each of Debug, Info and Error, `ConfigYawhg` with LogLevel the capitalised
`String` of the level followed by "Level" sets the minimum severity to that level; with any
LogLevel other than "DebugLevel", "InfoLevel" and "ErrorLevel" the minimum severity becomes
Info; the call always returns a configuration and its version tag is AppVersion, whatever
the configuration was before. -/
theorem configYawhg_test_names (o : Options) (w : World) (L : Level) :
    ((L = DebugLevel ∨ L = InfoLevel ∨ L = ErrorLevel) →
      o.LogLevel = Title (Level.String L) ++ "Level" → (ConfigYawhg o w).appLogLevel = L) ∧
    ((o.LogLevel ≠ "DebugLevel" ∧ o.LogLevel ≠ "InfoLevel" ∧ o.LogLevel ≠ "ErrorLevel") →
      (ConfigYawhg o w).appLogLevel = InfoLevel) ∧
    (ConfigYawhg o w).appVersion = o.AppVersion ∧
    (Title (Level.String DebugLevel) ++ "Level" = "DebugLevel" ∧
      Title (Level.String InfoLevel) ++ "Level" = "InfoLevel" ∧
      Title (Level.String ErrorLevel) ++ "Level" = "ErrorLevel") := by
  refine ⟨?_, ?_, configYawhg_appVersion o w, by decide, by decide, by decide⟩
  · rintro (rfl | rfl | rfl) h
    · have h2 : o.LogLevel = "DebugLevel" := h.trans (by decide)
      simp [ConfigYawhg, h2]
    · have h2 : o.LogLevel = "InfoLevel" := h.trans (by decide)
      simp [ConfigYawhg, h2]
    · have h2 : o.LogLevel = "ErrorLevel" := h.trans (by decide)
      simp [ConfigYawhg, h2]
  · rintro ⟨h0, h1, h2⟩
    simp [ConfigYawhg, h0, h1, h2]

/-- C18 at the Error level over a configuration whose threshold was Debug, and at the
unknown name "Warn". -/
theorem configYawhg_test_names_witness :
    (ConfigYawhg { AppVersion := "test", Enabled := false, LogLevel := "ErrorLevel" }
      infoRecordWorld).appLogLevel = ErrorLevel ∧
    (ConfigYawhg { AppVersion := "test", Enabled := false, LogLevel := "Warn" }
      infoRecordWorld).appLogLevel = InfoLevel :=
  ⟨(configYawhg_test_names
      { AppVersion := "test", Enabled := false, LogLevel := "ErrorLevel" } infoRecordWorld
      ErrorLevel).1 (Or.inr (Or.inr rfl)) (by decide),
   (configYawhg_test_names
      { AppVersion := "test", Enabled := false, LogLevel := "Warn" } infoRecordWorld
      InfoLevel).2.1 (by decide)⟩

/-! ## Request ids, continued: proofs -/

theorem fromContext_of_carries {ctx : Context} {s : String} (h : Carries ctx s)
    (newV4 : NewV4Result) : FromContext ctx newV4 = (ctx, s) := by
  unfold FromContext
  rcases h with h | ⟨h1, h2⟩
  · rw [h]
  · rw [h1, h2]

theorem addToContext_incoming (ctx : Context) (s : String) :
    (AddToContext ctx s).incoming = ctx.incoming := rfl

theorem addToContext_first_of_none (ctx : Context) (s : String)
    (h : firstRequestID ctx.outgoing = none) :
    firstRequestID (AddToContext ctx s).outgoing = some s := by
  obtain ⟨md, hmd, hget⟩ := addToContext_outgoing ctx s
  rw [firstRequestID_eq_none h, List.nil_append] at hget
  rw [hmd]
  simp [firstRequestID, hget]

theorem addToContext_first_of_some (ctx : Context) (s t : String)
    (h : firstRequestID ctx.outgoing = some t) :
    firstRequestID (AddToContext ctx s).outgoing = some t := by
  obtain ⟨md, hmd, hget⟩ := addToContext_outgoing ctx s
  cases ho : ctx.outgoing with
  | none => rw [ho] at h; cases h
  | some m =>
    rw [ho] at h hget
    simp only [firstRequestID] at h
    rw [hmd]
    simp only [firstRequestID, hget, Option.getD_some]
    cases hm : m.Get RequestIDHeader with
    | nil => rw [hm] at h; cases h
    | cons a rest =>
      rw [hm] at h
      simpa using h

theorem carries_addToContext {ctx : Context} {t : String} (h : Carries ctx t) (s : String) :
    Carries (AddToContext ctx s) t := by
  rcases h with h | ⟨h1, h2⟩
  · exact Or.inl h
  · exact Or.inr ⟨h1, addToContext_first_of_some ctx s t h2⟩

/-- C16, counterexample: on a context whose incoming metadata already holds `abc-123`,
`FromContext` after `AddToContext` with the id `s` returns `abc-123`, not `s`; and
`AddToHeader` on a request whose header map is nil panics. -/
theorem requestID_roundtrip_counterexample :
    (FromContext (AddToContext bothContext "s") (NewV4Result.ok "fresh")).2 = "abc-123" ∧
    (FromContext (AddToContext outgoingContext "s") (NewV4Result.ok "fresh")).2 = "out-1" ∧
    AddToHeader headerlessRequest "s" = .error Panic.nilMapAssign := by
  refine ⟨?_, ?_, rfl⟩
  · have h : Carries bothContext "abc-123" := Or.inl rfl
    rw [fromContext_of_carries (carries_addToContext h "s")]
  · have h : Carries outgoingContext "out-1" := Or.inr ⟨rfl, rfl⟩
    rw [fromContext_of_carries (carries_addToContext h "s")]

/-- C16, amended: for every context `ctx` carrying no x-request-id and every id `s`,
`FromContext` of `AddToContext(ctx, s)` returns `s`; for every request `r` with a header
map, `AddToHeader(r, s)` returns a request that yields `s` from `FromHeader`, and, when the
context of `r` carries no x-request-id, a context that yields `s` from `FromContext`. A
context that already carries an id `t` keeps yielding `t` after `AddToContext`. -/
theorem requestID_roundtrip (ctx : Context) (r : Request) (s : String)
    (newV4 : NewV4Result) :
    (firstRequestID ctx.incoming = none → firstRequestID ctx.outgoing = none →
      FromContext (AddToContext ctx s) newV4 = (AddToContext ctx s, s)) ∧
    (∀ md : MD, r.Header = some md → ∃ ctx2 r2, AddToHeader r s = .ok (ctx2, r2) ∧
      FromHeader r2 = s ∧
      (firstRequestID r.ctx.incoming = none → firstRequestID r.ctx.outgoing = none →
        FromContext ctx2 newV4 = (ctx2, s))) ∧
    (∀ t, Carries ctx t → FromContext (AddToContext ctx s) newV4 = (AddToContext ctx s, t)) := by
  have key : ∀ c : Context, firstRequestID c.incoming = none →
      firstRequestID c.outgoing = none →
      FromContext (AddToContext c s) newV4 = (AddToContext c s, s) := by
    intro c h1 h2
    have hc : Carries (AddToContext c s) s :=
      Or.inr ⟨h1, addToContext_first_of_none c s h2⟩
    exact fromContext_of_carries hc newV4
  refine ⟨key ctx, ?_, fun t ht => fromContext_of_carries (carries_addToContext ht s) newV4⟩
  intro md hmd
  refine ⟨AddToContext r.ctx s,
    { r with Header := some (md.insert (CanonicalMIMEHeaderKey RequestIDHeader) [s]) },
    ?_, ?_, key r.ctx⟩
  · simp [AddToHeader, headerSet, hmd, bind, Except.bind, pure, Except.pure]
  · simp only [FromHeader, headerGet_headerSet]

/-- C16, amended, on the background context and on a request with an empty header map. -/
theorem requestID_roundtrip_witness :
    (FromContext (AddToContext Background "my-request-id") (NewV4Result.ok "fresh")).2 =
      "my-request-id" ∧
    (∃ ctx2 r2, AddToHeader { Header := some ∅, ctx := Background } "my-request-id" =
        .ok (ctx2, r2) ∧ FromHeader r2 = "my-request-id" ∧
      (FromContext ctx2 (NewV4Result.ok "fresh")).2 = "my-request-id") := by
  have h := requestID_roundtrip Background { Header := some ∅, ctx := Background }
    "my-request-id" (NewV4Result.ok "fresh")
  refine ⟨by rw [h.1 rfl rfl], ?_⟩
  obtain ⟨ctx2, r2, h1, h2, h3⟩ := h.2.1 ∅ rfl
  exact ⟨ctx2, r2, h1, h2, by rw [h3 rfl rfl]⟩

/-! ## Stateless calls: proofs -/

theorem take_set_succ (l : List String) (i : Nat) (x : String) (h : i < l.length) :
    (l.set i x).take (i + 1) = l.take i ++ [x] := by
  induction l generalizing i with
  | nil => simp at h
  | cons a rest ih =>
    cases i with
    | zero => simp
    | succ j =>
      have hj : j < rest.length := by simpa using h
      simp [List.set, ih j hj]

theorem sprintLoop_eq_aux (Sprint : Value → String) (vs : List Value) (i : Nat)
    (message : List String) (h : message.length = i + vs.length) :
    sprintLoop Sprint i vs message = message.take i ++ vs.map Sprint := by
  induction vs generalizing i message with
  | nil =>
    simp only [sprintLoop, List.map_nil, List.append_nil]
    exact (List.take_of_length_le (by simp at h; omega)).symm
  | cons v rest ih =>
    simp only [sprintLoop]
    have hlen : (message.set i (Sprint v)).length = (i + 1) + rest.length := by
      simp only [List.length_set, h, List.length_cons]; omega
    have hi : i < message.length := by simp only [h, List.length_cons]; omega
    rw [ih (i + 1) _ hlen, take_set_succ _ _ _ hi]
    simp

theorem sprintLoop_eq (Sprint : Value → String) (v : List Value) :
    sprintLoop Sprint 0 v (List.replicate v.length "") = v.map Sprint := by
  rw [sprintLoop_eq_aux Sprint v 0 _ (by simp)]
  simp

/-- C13: for every list of values, `Debug`, `Info` and `Error` call `textWrap` on the
background context with the message made of the `fmt.Sprint` renderings of the values, in
order, joined with ", ", and with the severity "debug", "info" and "error" respectively; a
single value gives its rendering alone, no value gives the empty message. -/
theorem stateless_join (Sprint : Value → String) (v : List Value) (newV4 : NewV4Result)
    (now : String) (w : World) :
    Debug Sprint v newV4 now w =
      textWrap Background (String.intercalate ", " (v.map Sprint)) "debug" newV4 now w ∧
    Info Sprint v newV4 now w =
      textWrap Background (String.intercalate ", " (v.map Sprint)) "info" newV4 now w ∧
    Error Sprint v newV4 now w =
      textWrap Background (String.intercalate ", " (v.map Sprint)) "error" newV4 now w ∧
    String.intercalate ", " (([] : List Value).map Sprint) = "" ∧
    (∀ x : Value, String.intercalate ", " ([x].map Sprint) = Sprint x) := by
  refine ⟨?_, ?_, ?_, rfl, fun x => rfl⟩
  · simp only [Debug, logText, sprintLoop_eq]; rfl
  · simp only [Info, logText, sprintLoop_eq]; rfl
  · simp only [Error, logText, sprintLoop_eq]; rfl

/-! ## The pipeline on a caller's map: proofs -/

theorem gateLevel_frame (f : Fields) (w : World) :
    (gateLevel f w).2.appVersion = w.appVersion ∧
    (gateLevel f w).2.fieldsPool = w.fieldsPool ∧ (gateLevel f w).2.next = w.next := by
  rcases gateLevel_snd f w with h | ⟨d, h⟩ <;> (rw [h]; exact ⟨rfl, rfl, rfl⟩)

theorem fire_frame (f : Fields) (w : World) :
    (Fields.fire f w).appLogLevel = w.appLogLevel ∧
    (Fields.fire f w).Destination = w.Destination ∧
    (Fields.fire f w).appVersion = w.appVersion ∧
    (Fields.fire f w).fieldsPool = w.fieldsPool ∧ (Fields.fire f w).next = w.next := by
  unfold Fields.fire
  simp only []
  split_ifs <;> exact ⟨rfl, rfl, rfl, rfl, rfl⟩

/-- What `structuredWrap` does on a non-nil map: it returns, the maps are as after the
stamping of `time` and `v`, and one record, the stamped map, is written exactly when the
level passes the gate and the stamped map can be encoded. -/
theorem structuredWrap_spec (r : Nat) (now : String) (w : World) :
    ∃ w', structuredWrap (some r) now w = .ok w' ∧
      w'.cell = (cellSet r "v" (Value.str w.appVersion)
        (cellSet r "time" (Value.str now) w)).cell ∧
      (resolvedLevel w (some r) < w.appLogLevel → w'.written = w.written) ∧
      ((w'.cell r).encodable = false → w'.written = w.written) ∧
      (resolvedLevel w (some r) ≥ w.appLogLevel → (w'.cell r).encodable = true →
        w'.written = w.written ++ [(w.Destination, w'.cell r)]) ∧
      w'.appLogLevel = w.appLogLevel ∧ w'.Destination = w.Destination ∧
      w'.appVersion = w.appVersion ∧ w'.fieldsPool = w.fieldsPool ∧ w'.next = w.next := by
  have hL : resolvedLevel (cellSet r "v" (Value.str w.appVersion)
      (cellSet r "time" (Value.str now) w)) (some r) = resolvedLevel w (some r) :=
    resolvedLevel_congr (by
      rw [mapIndex_cellSet_other (by decide), mapIndex_cellSet_other (by decide)])
  refine ⟨_, structuredWrap_some r now w, ?_⟩
  rw [gateLevel_fst, hL]
  by_cases hge : resolvedLevel w (some r) ≥ w.appLogLevel
  · rw [if_pos hge]
    obtain ⟨f1, f2, f3, f4, f5⟩ := fire_frame (some r) (gateLevel (some r)
      (cellSet r "v" (Value.str w.appVersion) (cellSet r "time" (Value.str now) w))).2
    obtain ⟨g1, g2, g3⟩ := gateLevel_frame (some r)
      (cellSet r "v" (Value.str w.appVersion) (cellSet r "time" (Value.str now) w))
    refine ⟨by rw [fire_cell, gateLevel_cell], fun hlt => absurd hge (not_le.mpr hlt), ?_, ?_,
      by rw [f1]; simp, by rw [f2]; simp, by rw [f3, g1]; rfl, by rw [f4, g2]; rfl,
      by rw [f5, g3]; rfl⟩
    · intro henc
      rw [fire_cell, gateLevel_cell] at henc
      rw [fire_written_of_not_encodable _ _ (by simpa [contents] using henc)]
      simp
    · intro _ henc
      rw [fire_cell, gateLevel_cell] at henc ⊢
      rw [fire_written_of_encodable _ _ (by simpa [contents] using henc)]
      simp [contents]
  · rw [if_neg hge]
    obtain ⟨g1, g2, g3⟩ := gateLevel_frame (some r)
      (cellSet r "v" (Value.str w.appVersion) (cellSet r "time" (Value.str now) w))
    exact ⟨by rw [gateLevel_cell], fun _ => by simp, fun _ => by simp,
      fun h => absurd h hge, by simp, by simp, by rw [g1]; rfl, by rw [g2]; rfl,
      by rw [g3]; rfl⟩

theorem copyLoop_frame (dst : Nat) (es : List (Sigma fun _ : String => Value)) (w : World) :
    (copyLoop dst es w).written = w.written ∧
    (copyLoop dst es w).appLogLevel = w.appLogLevel ∧
    (copyLoop dst es w).Destination = w.Destination ∧
    (copyLoop dst es w).appVersion = w.appVersion ∧
    (copyLoop dst es w).fieldsPool = w.fieldsPool ∧ (copyLoop dst es w).next = w.next := by
  induction es generalizing w with
  | nil => exact ⟨rfl, rfl, rfl, rfl, rfl, rfl⟩
  | cons e rest ih =>
    obtain ⟨k, v⟩ := e
    simp only [copyLoop]
    obtain ⟨h1, h2, h3, h4, h5, h6⟩ := ih (cellSet dst k v w)
    exact ⟨h1, h2, h3, h4, h5, h6⟩

theorem copyLoop_encodable (dst : Nat) (es : List (Sigma fun _ : String => Value))
    (w : World) (hes : ∀ e ∈ es, e.2.encodable = true)
    (hw : (w.cell dst).encodable = true) :
    ((copyLoop dst es w).cell dst).encodable = true := by
  induction es generalizing w with
  | nil => exact hw
  | cons e rest ih =>
    obtain ⟨k, v⟩ := e
    simp only [copyLoop]
    apply ih
    · intro e he
      exact hes e (List.mem_cons_of_mem _ he)
    · rw [cellSet_cell_same]
      exact encodable_insert _ _ _ hw (hes ⟨k, v⟩ (List.mem_cons_self _ _))

theorem copy_frame (f : Fields) (w : World) :
    (f.Copy w).2.written = w.written ∧ (f.Copy w).2.appLogLevel = w.appLogLevel ∧
    (f.Copy w).2.Destination = w.Destination ∧ (f.Copy w).2.appVersion = w.appVersion ∧
    (f.Copy w).2.fieldsPool = w.fieldsPool ∧ (f.Copy w).2.next = w.next + 1 := by
  obtain ⟨h1, h2, h3, h4, h5, h6⟩ :=
    copyLoop_frame w.next (contents w f).entries (alloc w).2
  exact ⟨h1, h2, h3, h4, h5, h6⟩

theorem copy_encodable (f : Fields) (w : World) (h : (contents w f).encodable = true) :
    ((f.Copy w).2.cell w.next).encodable = true := by
  apply copyLoop_encodable w.next (contents w f).entries (alloc w).2
  · intro e he
    exact (List.all_eq_true.mp h) e he
  · simp [alloc, World.store, Entries.encodable]

theorem withFields_no_errors (f : Fields) (w : World) :
    WithFields f [] w = .ok (some w.next, (f.Copy w).2) := rfl

theorem logMsg_some (level : Level) (r : Nat) (msg now : String) (w : World) :
    Fields.logMsg level (some r) msg now w =
      structuredWrap (some r) now
        (cellSet r "msg" (Value.str msg)
          (cellSet r "severity" (Value.str level.String) w)) := rfl

theorem resolvedLevel_of_severity (r : Nat) (s : String) (w : World) :
    resolvedLevel (cellSet r "severity" (Value.str s) w) (some r) = resolveString s := by
  unfold resolvedLevel
  rw [mapIndex_cellSet_same]

/-! ## Cumulative logging end to end: proofs -/

/-- C11, counterexample: with threshold Info, `WithFields` on a map holding a channel
followed by `Info` returns normally and emits no record. -/
theorem cumulative_unencodable_counterexample :
    unencodableWorld.appLogLevel = InfoLevel ∧
    ∃ data w1 w2, WithFields (some 0) [] unencodableWorld = .ok (data, w1) ∧
      Fields.Info data "info message" "t" w1 = .ok w2 ∧ w2.written = [] :=
  ⟨rfl, _, _, _, rfl, rfl, rfl⟩

/-- C11, amended: with threshold Info, for every FieldSet `f` and message `msg`,
`WithFields(f).Debug(msg)` emits no record, and, when every value of `f` can be
JSON-encoded, `WithFields(f).Info(msg)` emits exactly one record; that record holds every
entry of `f` whose key is not one of severity, msg, time, v, together with severity "info",
msg equal to `msg`, the time stamp under time and the configured version tag under v. -/
theorem cumulative_end_to_end (f : Fields) (msg now : String) (w : World)
    (hm : w.appLogLevel = InfoLevel) :
    ∃ data w1, WithFields f [] w = .ok (data, w1) ∧
      (∃ w2, Fields.Debug data msg now w1 = .ok w2 ∧ w2.written = w.written) ∧
      (∃ w3, Fields.Info data msg now w1 = .ok w3 ∧
        ((contents w f).encodable = true → ∃ record : Entries,
          w3.written = w.written ++ [(w.Destination, record)] ∧
          (∀ k, k ≠ "severity" → k ≠ "msg" → k ≠ "time" → k ≠ "v" →
            record.lookup k = mapIndex w f k) ∧
          record.lookup "severity" = some (Value.str "info") ∧
          record.lookup "msg" = some (Value.str msg) ∧
          record.lookup "time" = some (Value.str now) ∧
          record.lookup "v" = some (Value.str w.appVersion))) := by
  obtain ⟨c1, c2, c3, c4, _, _⟩ := copy_frame f w
  refine ⟨some w.next, (f.Copy w).2, withFields_no_errors f w, ?_, ?_⟩
  · obtain ⟨w2, h1, _, h3, _⟩ := structuredWrap_spec w.next now
      (cellSet w.next "msg" (Value.str msg)
        (cellSet w.next "severity" (Value.str DebugLevel.String) (f.Copy w).2))
    refine ⟨w2, h1, ?_⟩
    have hL : resolvedLevel (cellSet w.next "msg" (Value.str msg)
        (cellSet w.next "severity" (Value.str DebugLevel.String) (f.Copy w).2))
        (some w.next) = DebugLevel := by
      rw [resolvedLevel_congr (mapIndex_cellSet_other (by decide) _ _ _),
        resolvedLevel_of_severity]
      decide
    rw [h3 (by rw [hL]; simp only [cellSet_appLogLevel, c2, hm]; decide)]
    simp [c1]
  · obtain ⟨w3, h1, hcell, _, _, h5, _⟩ := structuredWrap_spec w.next now
      (cellSet w.next "msg" (Value.str msg)
        (cellSet w.next "severity" (Value.str InfoLevel.String) (f.Copy w).2))
    refine ⟨w3, h1, ?_⟩
    intro henc
    have hL : resolvedLevel (cellSet w.next "msg" (Value.str msg)
        (cellSet w.next "severity" (Value.str InfoLevel.String) (f.Copy w).2))
        (some w.next) = InfoLevel := by
      rw [resolvedLevel_congr (mapIndex_cellSet_other (by decide) _ _ _),
        resolvedLevel_of_severity]
      decide
    have hrec : w3.cell w.next =
        ((((((f.Copy w).2.cell w.next).insert "severity" (Value.str "info")).insert "msg"
          (Value.str msg)).insert "time" (Value.str now)).insert "v"
            (Value.str w.appVersion)) := by
      rw [hcell]
      simp only [cellSet_cell_same, cellSet_appVersion, c4]
      rfl
    have henc3 : (w3.cell w.next).encodable = true := by
      rw [hrec]
      exact encodable_insert _ _ _ (encodable_insert _ _ _ (encodable_insert _ _ _
        (encodable_insert _ _ _ (copy_encodable f w henc) rfl) rfl) rfl) rfl
    refine ⟨w3.cell w.next, ?_, ?_, ?_, ?_, ?_, ?_⟩
    · rw [h5 (by rw [hL]; simp only [cellSet_appLogLevel, c2, hm]; decide) henc3]
      simp [c1, c3]
    · intro k h1 h2 h3 h4
      rw [hrec, AList.lookup_insert_ne h4, AList.lookup_insert_ne h3,
        AList.lookup_insert_ne h2, AList.lookup_insert_ne h1]
      exact copy_lookup f w k
    · rw [hrec, AList.lookup_insert_ne (by decide), AList.lookup_insert_ne (by decide),
        AList.lookup_insert_ne (by decide), AList.lookup_insert]
    · rw [hrec, AList.lookup_insert_ne (by decide), AList.lookup_insert_ne (by decide),
        AList.lookup_insert]
    · rw [hrec, AList.lookup_insert_ne (by decide), AList.lookup_insert]
    · rw [hrec, AList.lookup_insert]

/-- C11, amended, on the map `"Test": "Foo"` with the threshold Info of `init`: Debug emits
nothing, Info emits one record that holds `"Test": "Foo"` and severity "info". -/
theorem cumulative_end_to_end_witness :
    ∃ data w1, WithFields (some 0) [] exampleWorld = .ok (data, w1) ∧
      (∃ w2, Fields.Debug data "m" "t" w1 = .ok w2 ∧ w2.written = exampleWorld.written) ∧
      (∃ w3 record, Fields.Info data "m" "t" w1 = .ok w3 ∧
        w3.written = exampleWorld.written ++ [(exampleWorld.Destination, record)] ∧
        record.lookup "Test" = some (Value.str "Foo") ∧
        record.lookup "severity" = some (Value.str "info")) := by
  obtain ⟨data, w1, h1, h2, w3, h3, h4⟩ := cumulative_end_to_end (some 0) "m" "t"
    exampleWorld rfl
  obtain ⟨record, r1, r2, r3, _⟩ := h4 (by decide)
  exact ⟨data, w1, h1, h2, w3, record, h3, r1,
    (r2 "Test" (by decide) (by decide) (by decide) (by decide)).trans rfl, r3⟩

/-! ## Cumulative merge: proofs -/

theorem assignLoop_some (r : Nat) (es : List (Sigma fun _ : String => Value)) (w : World) :
    assignLoop (some r) es w = .ok (copyLoop r es w) := by
  induction es generalizing w with
  | nil => rfl
  | cons e rest ih =>
    obtain ⟨k, v⟩ := e
    simp only [assignLoop, copyLoop, mapAssign, bind, Except.bind]
    exact ih _

theorem logw_some (level : Level) (rf : Nat) (d : Fields) (now : String) (w : World) :
    Fields.logw level (some rf) d now w =
      structuredWrap (some rf) now
        (cellSet rf "severity" (Value.str level.String)
          (copyLoop rf (contents w d).entries w)) := by
  simp only [Fields.logw, assignLoop_some, mapAssign, bind, Except.bind]

/-- What a cumulative `w` method does on a non-nil receiver. -/
theorem logw_spec (level : Level) (rf : Nat) (d : Fields) (now : String) (w : World) :
    ∃ w2, Fields.logw level (some rf) d now w = .ok w2 ∧ MergedInto w w2 (some rf) d ∧
      (∀ a, a ≠ rf → w2.cell a = w.cell a) ∧
      w2.appLogLevel = w.appLogLevel ∧ w2.Destination = w.Destination ∧
      (resolveString level.String ≥ w.appLogLevel → (w2.cell rf).encodable = true →
        w2.written = w.written ++ [(w.Destination, w2.cell rf)]) := by
  obtain ⟨c1, c2, c3, _, _, _⟩ := copyLoop_frame rf (contents w d).entries w
  obtain ⟨w2, h1, hcell, _, _, h5, h6, h7, _⟩ := structuredWrap_spec rf now
    (cellSet rf "severity" (Value.str level.String) (copyLoop rf (contents w d).entries w))
  have hlook : ∀ k, k ≠ "severity" → k ≠ "time" → k ≠ "v" →
      mapIndex w2 (some rf) k =
        (match mapIndex w d k with
          | some v => some v
          | none => mapIndex w (some rf) k) := by
    intro k k1 k2 k3
    have hc := copyLoop_lookup rf k (contents w d).entries (contents w d).nodupKeys w
    simp only [mapIndex, contents, hcell, cellSet_cell_same, AList.lookup_insert_ne k3,
      AList.lookup_insert_ne k2, AList.lookup_insert_ne k1]
    exact hc
  refine ⟨w2, (logw_some level rf d now w).trans h1, ⟨?_, ?_⟩, ?_, ?_, ?_, ?_⟩
  · intro k v k1 k2 k3 hv
    rw [hlook k k1 k2 k3, hv]
  · intro k k1 k2 k3 hv
    rw [hlook k k1 k2 k3, hv]
  · intro a ha
    rw [hcell, cellSet_cell_other ha, cellSet_cell_other ha, cellSet_cell_other ha,
      copyLoop_cell_other ha]
  · rw [h6]; exact c2
  · rw [h7]; exact c3
  · intro hge henc
    rw [h5 (by rw [resolvedLevel_of_severity]; simpa [c2] using hge) henc]
    simp [c1, c3]

/-- C14, counterexample: on a nil receiver `Infow` panics at its first assignment, here
the one of the key Test of the details. -/
theorem cumulative_merge_nil_counterexample :
    Fields.Infow none (some 0) "t" exampleWorld = .error Panic.nilMapAssign := by
  rfl

/-- C14, amended: for every non-nil receiver FieldSet `f` and details `d`, `f.Infow(d)`
(likewise `Debugw`, `Errorw`) returns, and afterwards every key of `d` other than severity,
time and v maps in `f` to its value in `d`, and every key that is not in `d` and not one of
the three keeps its value in `f`. After `f.Infow(d)` then `f.Infow(d2)` the map `f` holds
the entries of `d2` (as the second call finds them) and those entries of `d` whose key is
not in `d2`, and it is the record written by the second call when Info passes the gate and
the map can be encoded. -/
theorem cumulative_merge (rf : Nat) (d d2 : Fields) (now now2 : String) (w : World) :
    (∃ w2, Fields.Infow (some rf) d now w = .ok w2 ∧ MergedInto w w2 (some rf) d) ∧
    (∃ w2, Fields.Debugw (some rf) d now w = .ok w2 ∧ MergedInto w w2 (some rf) d) ∧
    (∃ w2, Fields.Errorw (some rf) d now w = .ok w2 ∧ MergedInto w w2 (some rf) d) ∧
    (∃ w1 w2, Fields.Infow (some rf) d now w = .ok w1 ∧
      Fields.Infow (some rf) d2 now2 w1 = .ok w2 ∧
      (∀ k v, k ≠ "severity" → k ≠ "time" → k ≠ "v" → mapIndex w1 d2 k = some v →
        mapIndex w2 (some rf) k = some v) ∧
      (∀ k v, k ≠ "severity" → k ≠ "time" → k ≠ "v" → mapIndex w1 d2 k = none →
        mapIndex w d k = some v → mapIndex w2 (some rf) k = some v) ∧
      (InfoLevel ≥ w.appLogLevel → (w2.cell rf).encodable = true →
        w2.written = w1.written ++ [(w.Destination, w2.cell rf)])) := by
  refine ⟨?_, ?_, ?_, ?_⟩
  · obtain ⟨w2, h1, h2, _⟩ := logw_spec InfoLevel rf d now w
    exact ⟨w2, h1, h2⟩
  · obtain ⟨w2, h1, h2, _⟩ := logw_spec DebugLevel rf d now w
    exact ⟨w2, h1, h2⟩
  · obtain ⟨w2, h1, h2, _⟩ := logw_spec ErrorLevel rf d now w
    exact ⟨w2, h1, h2⟩
  · obtain ⟨w1, h1, m1, _, hlvl, hdst, _⟩ := logw_spec InfoLevel rf d now w
    obtain ⟨w2, h2, m2, _, _, _, hemit⟩ := logw_spec InfoLevel rf d2 now2 w1
    refine ⟨w1, w2, h1, h2, ?_, ?_, ?_⟩
    · intro k v k1 k2 k3 hv
      exact m2.1 k v k1 k2 k3 hv
    · intro k v k1 k2 k3 hnone hv
      rw [m2.2 k k1 k2 k3 hnone]
      exact m1.1 k v k1 k2 k3 hv
    · intro hge henc
      rw [hemit (by rw [hlvl]; exact hge) henc, hdst]

/-- C14, amended, on an empty logger and the details `"myField": "foo"`, then
`"additionalField": "bar"`: after the two calls the logger holds both entries. -/
theorem cumulative_merge_witness :
    ∃ w1 w2, Fields.Infow (some 0) (some 1) "t1" cumulativeWorld = .ok w1 ∧
      Fields.Infow (some 0) (some 2) "t2" w1 = .ok w2 ∧
      mapIndex w2 (some 0) "additionalField" = some (Value.str "bar") ∧
      mapIndex w2 (some 0) "myField" = some (Value.str "foo") := by
  obtain ⟨w1, w2, h1, h2, h3, h4, _⟩ :=
    (cumulative_merge 0 (some 1) (some 2) "t1" "t2" cumulativeWorld).2.2.2
  have h5 : ∃ w3, Fields.Infow (some 0) (some 1) "t1" cumulativeWorld = .ok w3 ∧
      mapIndex w3 (some 2) "additionalField" = some (Value.str "bar") ∧
      mapIndex w3 (some 2) "myField" = none := ⟨_, rfl, rfl, rfl⟩
  obtain ⟨w3, e3, p3, q3⟩ := h5
  have h6 : w1 = w3 := Except.ok.inj (h1.symm.trans e3)
  subst h6
  exact ⟨w1, w2, h1, h2,
    h3 "additionalField" _ (by decide) (by decide) (by decide) p3,
    h4 "myField" _ (by decide) (by decide) (by decide) q3 rfl⟩

/-! ## The pool and `textWrap`: proofs -/

theorem resetLoop_cell_other {a r : Nat} (h : a ≠ r) (ks : List String) (w : World) :
    (resetLoop (some r) ks w).cell a = w.cell a := by
  induction ks generalizing w with
  | nil => rfl
  | cons k rest ih =>
    simp only [resetLoop]
    rw [ih]
    simp [mapDelete, World.store, h]

theorem resetLoop_cell_same (r : Nat) (ks : List String) (w : World) :
    (resetLoop (some r) ks w).cell r = ks.foldl (fun m k => AList.erase k m) (w.cell r) := by
  induction ks generalizing w with
  | nil => rfl
  | cons k rest ih =>
    simp only [resetLoop, List.foldl_cons]
    rw [ih]
    simp [mapDelete, World.store]

theorem resetLoop_frame (f : Fields) (ks : List String) (w : World) :
    (resetLoop f ks w).fieldsPool = w.fieldsPool ∧ (resetLoop f ks w).next = w.next ∧
    (resetLoop f ks w).appVersion = w.appVersion ∧
    (resetLoop f ks w).appLogLevel = w.appLogLevel ∧
    (resetLoop f ks w).Destination = w.Destination := by
  induction ks generalizing w with
  | nil => exact ⟨rfl, rfl, rfl, rfl, rfl⟩
  | cons k rest ih =>
    simp only [resetLoop]
    obtain ⟨h1, h2, h3, h4, h5⟩ := ih (mapDelete f k w)
    rw [h1, h2, h3, h4, h5]
    cases f <;> exact ⟨rfl, rfl, rfl, rfl, rfl⟩

theorem foldl_erase_eq_empty (ks : List String) (m : Entries)
    (h : ∀ k, k ∈ m.keys → k ∈ ks) :
    ks.foldl (fun m k => AList.erase k m) m = ∅ := by
  induction ks generalizing m with
  | nil =>
    apply AList.ext
    have hk : m.keys = [] := List.eq_nil_iff_forall_not_mem.mpr (fun k hk => by
      simpa using h k hk)
    simpa [AList.keys, List.keys] using hk
  | cons k rest ih =>
    simp only [List.foldl_cons]
    apply ih
    intro k2 hk2
    have hmem : k2 ∈ AList.erase k m := AList.mem_keys.mpr hk2
    rw [AList.mem_erase] at hmem
    have := h k2 (AList.mem_keys.mp hmem.2)
    rcases List.mem_cons.mp this with h1 | h1
    · exact absurd h1 hmem.1
    · exact h1

theorem resetWrapper_cell_same (r : Nat) (w : World) :
    (Fields.resetWrapper (some r) w).cell r = ∅ := by
  unfold Fields.resetWrapper
  rw [resetLoop_cell_same]
  exact foldl_erase_eq_empty _ _ (fun k hk => hk)

theorem poolGet_appVersion (w : World) : (poolGet w).2.appVersion = w.appVersion := by
  unfold poolGet; split <;> rfl

/-- What `textWrap` does: it returns; one record, the filled pool instance, is written
exactly when the level of the severity string passes the gate and the instance can be
encoded; the instance is emptied and put back first in the pool; no other map changes. -/
theorem textWrap_spec (ctx : Context) (msg level : String) (newV4 : NewV4Result)
    (now : String) (w : World) :
    ∃ w2, textWrap ctx msg level newV4 now w = .ok w2 ∧
      (resolveString level < w.appLogLevel → w2.written = w.written) ∧
      ((textRecord ctx msg level newV4 now w).encodable = false → w2.written = w.written) ∧
      (resolveString level ≥ w.appLogLevel →
        (textRecord ctx msg level newV4 now w).encodable = true →
        w2.written = w.written ++ [(w.Destination, textRecord ctx msg level newV4 now w)]) ∧
      w2.fieldsPool = (poolGet w).1 :: (poolGet w).2.fieldsPool ∧
      w2.cell (poolGet w).1 = ∅ ∧
      (∀ a, a ≠ (poolGet w).1 → w2.cell a = (poolGet w).2.cell a) ∧
      w2.next = (poolGet w).2.next ∧ w2.appVersion = w.appVersion ∧
      w2.appLogLevel = w.appLogLevel ∧ w2.Destination = w.Destination := by
  have hL : resolvedLevel
      (cellSet (poolGet w).1 requestIDKey (Value.str (FromContext ctx newV4).2)
        (cellSet (poolGet w).1 "v" (Value.str (poolGet w).2.appVersion)
          (cellSet (poolGet w).1 "time" (Value.str now)
            (cellSet (poolGet w).1 "msg" (Value.str msg)
              (cellSet (poolGet w).1 "severity" (Value.str level) (poolGet w).2)))))
      (some (poolGet w).1) = resolveString level := by
    unfold resolvedLevel
    rw [mapIndex_cellSet_other (by decide), mapIndex_cellSet_other (by decide),
      mapIndex_cellSet_other (by decide), mapIndex_cellSet_other (by decide),
      mapIndex_cellSet_same]
  have hrec : (cellSet (poolGet w).1 requestIDKey (Value.str (FromContext ctx newV4).2)
        (cellSet (poolGet w).1 "v" (Value.str (poolGet w).2.appVersion)
          (cellSet (poolGet w).1 "time" (Value.str now)
            (cellSet (poolGet w).1 "msg" (Value.str msg)
              (cellSet (poolGet w).1 "severity" (Value.str level)
                (poolGet w).2))))).cell (poolGet w).1 =
      textRecord ctx msg level newV4 now w := by
    simp only [cellSet_cell_same, textRecord, poolGet_appVersion]
  refine ⟨_, textWrap_eq ctx msg level newV4 now w, ?_⟩
  rw [gateLevel_fst, hL, poolGet_appLogLevel]
  by_cases hge : resolveString level ≥ w.appLogLevel
  · rw [if_pos hge]
    obtain ⟨f1, f2, f3, f4, f5⟩ := fire_frame (some (poolGet w).1) (gateLevel
      (some (poolGet w).1)
      (cellSet (poolGet w).1 requestIDKey (Value.str (FromContext ctx newV4).2)
        (cellSet (poolGet w).1 "v" (Value.str (poolGet w).2.appVersion)
          (cellSet (poolGet w).1 "time" (Value.str now)
            (cellSet (poolGet w).1 "msg" (Value.str msg)
              (cellSet (poolGet w).1 "severity" (Value.str level) (poolGet w).2)))))).2
    obtain ⟨g1, g2, g3⟩ := gateLevel_frame (some (poolGet w).1)
      (cellSet (poolGet w).1 requestIDKey (Value.str (FromContext ctx newV4).2)
        (cellSet (poolGet w).1 "v" (Value.str (poolGet w).2.appVersion)
          (cellSet (poolGet w).1 "time" (Value.str now)
            (cellSet (poolGet w).1 "msg" (Value.str msg)
              (cellSet (poolGet w).1 "severity" (Value.str level) (poolGet w).2)))))
    refine ⟨fun hlt => absurd hge (not_le.mpr hlt), ?_, ?_, ?_, ?_, ?_, ?_, ?_, ?_, ?_⟩
    · intro henc
      simp only [poolPut, Fields.resetWrapper, resetLoop_written]
      rw [fire_written_of_not_encodable _ _ (by
        simpa only [contents, gateLevel_cell, hrec] using henc)]
      simp [poolGet_written]
    · intro _ henc
      simp only [poolPut, Fields.resetWrapper, resetLoop_written]
      rw [fire_written_of_encodable _ _ (by
        simpa only [contents, gateLevel_cell, hrec] using henc)]
      simp only [contents, gateLevel_cell, hrec, gateLevel_written, cellSet_written,
        gateLevel_Destination, cellSet_Destination, poolGet_written, poolGet_Destination]
    · simp only [poolPut, Fields.resetWrapper, (resetLoop_frame _ _ _).1, f4, g2]
      rfl
    · simp only [poolPut]
      exact resetWrapper_cell_same _ _
    · intro a ha
      simp only [poolPut, Fields.resetWrapper]
      rw [resetLoop_cell_other ha, fire_cell, gateLevel_cell, cellSet_cell_other ha,
        cellSet_cell_other ha, cellSet_cell_other ha, cellSet_cell_other ha,
        cellSet_cell_other ha]
    · simp only [poolPut, Fields.resetWrapper, (resetLoop_frame _ _ _).2.1, f5, g3]
      rfl
    · simp only [poolPut, Fields.resetWrapper, (resetLoop_frame _ _ _).2.2.1, f3, g1]
      exact poolGet_appVersion w
    · simp only [poolPut, Fields.resetWrapper, (resetLoop_frame _ _ _).2.2.2.1, f1,
        gateLevel_appLogLevel]
      exact poolGet_appLogLevel w
    · simp only [poolPut, Fields.resetWrapper, (resetLoop_frame _ _ _).2.2.2.2, f2,
        gateLevel_Destination]
      exact poolGet_Destination w
  · rw [if_neg hge]
    obtain ⟨g1, g2, g3⟩ := gateLevel_frame (some (poolGet w).1)
      (cellSet (poolGet w).1 requestIDKey (Value.str (FromContext ctx newV4).2)
        (cellSet (poolGet w).1 "v" (Value.str (poolGet w).2.appVersion)
          (cellSet (poolGet w).1 "time" (Value.str now)
            (cellSet (poolGet w).1 "msg" (Value.str msg)
              (cellSet (poolGet w).1 "severity" (Value.str level) (poolGet w).2)))))
    have hw : (poolPut (poolGet w).1 (Fields.resetWrapper (some (poolGet w).1)
        (gateLevel (some (poolGet w).1)
          (cellSet (poolGet w).1 requestIDKey (Value.str (FromContext ctx newV4).2)
            (cellSet (poolGet w).1 "v" (Value.str (poolGet w).2.appVersion)
              (cellSet (poolGet w).1 "time" (Value.str now)
                (cellSet (poolGet w).1 "msg" (Value.str msg)
                  (cellSet (poolGet w).1 "severity" (Value.str level)
                    (poolGet w).2)))))).2)).written = w.written := by
      simp [poolPut, Fields.resetWrapper, resetLoop_written, poolGet_written]
    refine ⟨fun _ => hw, fun _ => hw, fun h => absurd h hge, ?_, ?_, ?_, ?_, ?_, ?_, ?_⟩
    · simp only [poolPut, Fields.resetWrapper, (resetLoop_frame _ _ _).1, g2]
      rfl
    · simp only [poolPut]
      exact resetWrapper_cell_same _ _
    · intro a ha
      simp only [poolPut, Fields.resetWrapper]
      rw [resetLoop_cell_other ha, gateLevel_cell, cellSet_cell_other ha,
        cellSet_cell_other ha, cellSet_cell_other ha, cellSet_cell_other ha,
        cellSet_cell_other ha]
    · simp only [poolPut, Fields.resetWrapper, (resetLoop_frame _ _ _).2.1, g3]
      rfl
    · simp only [poolPut, Fields.resetWrapper, (resetLoop_frame _ _ _).2.2.1, g1]
      exact poolGet_appVersion w
    · simp only [poolPut, Fields.resetWrapper, (resetLoop_frame _ _ _).2.2.2.1,
        gateLevel_appLogLevel]
      exact poolGet_appLogLevel w
    · simp only [poolPut, Fields.resetWrapper, (resetLoop_frame _ _ _).2.2.2.2,
        gateLevel_Destination]
      exact poolGet_Destination w

/-! ## Tracing injection: proofs -/

theorem addTracing_some (r : Nat) (ctx : Context) (newV4 : NewV4Result) (w : World) :
    Fields.addTracing (some r) ctx newV4 w =
      .ok ((FromContext ctx newV4).1,
        cellSet r requestIDKey (Value.str (FromContext ctx newV4).2) w) := rfl

theorem addErrors_ok (f : Fields) (errors : List (Option String)) (w : World)
    (h : f = none → errors.filterMap id = []) :
    ∃ w1, addErrors f errors w = .ok w1 ∧ w1.written = w.written ∧
      w1.Destination = w.Destination ∧ w1.appLogLevel = w.appLogLevel := by
  by_cases he : errors.filterMap id = []
  · exact ⟨w, addErrors_of_none f errors w he, rfl, rfl, rfl⟩
  · cases f with
    | none => exact absurd (h rfl) he
    | some r => exact ⟨_, addErrors_of_some r errors w he, rfl, rfl, rfl⟩

/-- The pipeline on a non-nil map that holds `val` under a key other than time and v: it
returns, and a record it writes holds `val` under that key. -/
theorem structuredWrap_logged (r : Nat) (now : String) (w : World) (key : String)
    (val : Value) (h1 : key ≠ "time") (h2 : key ≠ "v")
    (hv : mapIndex w (some r) key = some val) :
    ∃ w2, structuredWrap (some r) now w = .ok w2 ∧ LoggedWith w w2 key val := by
  obtain ⟨w2, hw, hcell, hlt, hnot, hemit, _⟩ := structuredWrap_spec r now w
  refine ⟨w2, hw, ?_⟩
  by_cases hge : resolvedLevel w (some r) ≥ w.appLogLevel
  · cases henc : (w2.cell r).encodable with
    | false => exact Or.inl (hnot henc)
    | true =>
      refine Or.inr ⟨w2.cell r, hemit hge henc, ?_⟩
      rw [hcell]
      simp only [cellSet_cell_same, AList.lookup_insert_ne h2, AList.lookup_insert_ne h1]
      exact hv
  · exact Or.inl (hlt (not_le.mp hge))

/-- C15: on a map the callers pass (never nil), `addTracing(ctx)` returns the context that
`FromContext(ctx)` returned, stores the id that `FromContext(ctx)` returned under
request_id and changes no other key and no other map. A record written by a level method
on the result of `WithTracing`, by a `WithTracing` function of a level, or by an `ft`
function of a level holds that id under request_id; for a context carrying the id `s` that
id is `s`. -/
theorem tracing_injection (level : Level) (r : Nat) (details : Fields) (ctx : Context)
    (newV4 : NewV4Result) (errors : List (Option String)) (msg now format : String)
    (Sprintf : String → List Value → String) (v : List Value) (w : World)
    (hd : details = none → errors.filterMap id = []) :
    (∃ w2, Fields.addTracing (some r) ctx newV4 w = .ok ((FromContext ctx newV4).1, w2) ∧
      mapIndex w2 (some r) "request_id" = some (Value.str (FromContext ctx newV4).2) ∧
      (∀ k, k ≠ "request_id" → mapIndex w2 (some r) k = mapIndex w (some r) k) ∧
      (∀ a, a ≠ r → w2.cell a = w.cell a)) ∧
    (∃ data w1 w2, WithTracing ctx details errors newV4 w = .ok (data, w1) ∧
      mapIndex w1 data "request_id" = some (Value.str (FromContext ctx newV4).2) ∧
      Fields.logMsg level data msg now w1 = .ok w2 ∧
      LoggedWith w1 w2 "request_id" (Value.str (FromContext ctx newV4).2)) ∧
    (∃ w2, logMapWithTracing level ctx (some r) errors newV4 now w = .ok w2 ∧
      LoggedWith w w2 "request_id" (Value.str (FromContext ctx newV4).2)) ∧
    (∃ w2, logTextft Sprintf level ctx format v newV4 now w = .ok w2 ∧
      LoggedWith w w2 "request_id" (Value.str (FromContext ctx newV4).2)) ∧
    (∀ s, Carries ctx s → (FromContext ctx newV4).2 = s) := by
  refine ⟨?_, ?_, ?_, ?_, ?_⟩
  · refine ⟨_, addTracing_some r ctx newV4 w, mapIndex_cellSet_same _ _ _ _, ?_, ?_⟩
    · intro k hk
      exact mapIndex_cellSet_other hk _ _ _
    · intro a ha
      exact cellSet_cell_other ha _ _ _
  · obtain ⟨w1, he, _⟩ := addErrors_ok details errors w hd
    have hW : WithTracing ctx details errors newV4 w =
        .ok (some w1.next, cellSet w1.next requestIDKey
          (Value.str (FromContext ctx newV4).2) (details.Copy w1).2) := by
      simp only [WithTracing, he, bind, Except.bind]
      rfl
    have hid : mapIndex (cellSet w1.next requestIDKey
        (Value.str (FromContext ctx newV4).2) (details.Copy w1).2) (some w1.next)
        "request_id" = some (Value.str (FromContext ctx newV4).2) :=
      mapIndex_cellSet_same _ _ _ _
    obtain ⟨w2, h2, hl⟩ := structuredWrap_logged w1.next now
      (cellSet w1.next "msg" (Value.str msg) (cellSet w1.next "severity"
        (Value.str level.String) (cellSet w1.next requestIDKey
          (Value.str (FromContext ctx newV4).2) (details.Copy w1).2)))
      "request_id" (Value.str (FromContext ctx newV4).2) (by decide) (by decide)
      (by rw [mapIndex_cellSet_other (by decide), mapIndex_cellSet_other (by decide)]
          exact hid)
    exact ⟨_, _, w2, hW, hid, (logMsg_some level _ msg now _).trans h2, hl⟩
  · obtain ⟨w1, he, hw1, hd1, _⟩ := addErrors_ok (some r) errors w (fun h => by cases h)
    obtain ⟨w2, h2, hl⟩ := structuredWrap_logged r now
      (cellSet r requestIDKey (Value.str (FromContext ctx newV4).2)
        (cellSet r "severity" (Value.str level.String) w1))
      "request_id" (Value.str (FromContext ctx newV4).2) (by decide) (by decide)
      (mapIndex_cellSet_same _ _ _ _)
    refine ⟨w2, ?_, ?_⟩
    · simp only [logMapWithTracing, he, mapAssign, addTracing_some, bind, Except.bind]
      exact h2
    · rcases hl with hl | ⟨record, hl, hr⟩
      · exact Or.inl (hl.trans hw1)
      · refine Or.inr ⟨record, ?_, hr⟩
        rw [hl]
        simp [hw1, hd1]
  · obtain ⟨w2, hw, hlt, hnot, hemit, _⟩ :=
      textWrap_spec ctx (Sprintf format v) level.String newV4 now w
    refine ⟨w2, hw, ?_⟩
    by_cases hge : resolveString level.String ≥ w.appLogLevel
    · cases henc : (textRecord ctx (Sprintf format v) level.String newV4 now w).encodable with
      | false => exact Or.inl (hnot henc)
      | true => exact Or.inr ⟨_, hemit hge henc, AList.lookup_insert _⟩
    · exact Or.inl (hlt (not_le.mp hge))
  · intro s hs
    rw [fromContext_of_carries hs]

/-- C15 on the context of the tests, which carries `fake-request-id`: `InfoWithTracing` on
the map `"Test": "Foo"` and `Infoft` write at most one record each, and a record written
holds `fake-request-id` under request_id. -/
theorem tracing_injection_witness :
    (∃ w2, InfoWithTracing fakeIDContext (some 0) [] (NewV4Result.ok "fresh") "t"
        exampleWorld = .ok w2 ∧
      LoggedWith exampleWorld w2 "request_id" (Value.str "fake-request-id")) ∧
    (∃ w2, Infoft (fun format _ => format) fakeIDContext "Sending" [] (NewV4Result.ok "fresh")
        "t" exampleWorld = .ok w2 ∧
      LoggedWith exampleWorld w2 "request_id" (Value.str "fake-request-id")) := by
  have h := tracing_injection InfoLevel 0 (some 0) fakeIDContext (NewV4Result.ok "fresh") []
    "m" "t" "Sending" (fun format _ => format) [] exampleWorld (fun _ => rfl)
  exact ⟨h.2.2.1, h.2.2.2.1⟩

/-! ## Pool invariant: proofs -/

theorem poolClean_init : PoolClean init :=
  ⟨fun r hr => (by cases hr), List.nodup_nil⟩

theorem poolGet_clean (w : World) (h : PoolClean w) :
    (poolGet w).1 < (poolGet w).2.next ∧ (poolGet w).1 ∉ (poolGet w).2.fieldsPool ∧
    (∀ a ∈ (poolGet w).2.fieldsPool, a < (poolGet w).2.next ∧ (poolGet w).2.cell a = ∅) ∧
    (poolGet w).2.fieldsPool.Nodup := by
  unfold poolGet
  split
  · rename_i r rest hr
    have hn : (r :: rest).Nodup := hr ▸ h.2
    refine ⟨(h.1 r (by rw [hr]; exact List.mem_cons_self _ _)).1,
      (List.nodup_cons.mp hn).1, ?_, (List.nodup_cons.mp hn).2⟩
    intro a ha
    exact h.1 a (by rw [hr]; exact List.mem_cons_of_mem _ ha)
  · rename_i hr
    refine ⟨Nat.lt_succ_self _, ?_, ?_, ?_⟩
    · simp [alloc, World.store, hr]
    · intro a ha
      simp [alloc, World.store, hr] at ha
    · simp [alloc, World.store, hr]

theorem textWrap_poolClean (ctx : Context) (msg level : String) (newV4 : NewV4Result)
    (now : String) (w w2 : World) (h : PoolClean w)
    (hw : textWrap ctx msg level newV4 now w = .ok w2) : PoolClean w2 := by
  obtain ⟨w3, h3, _, _, _, hpool, hcell, hother, hnext, _⟩ :=
    textWrap_spec ctx msg level newV4 now w
  have heq : w3 = w2 := by
    rw [h3] at hw
    exact Except.ok.inj hw
  subst heq
  obtain ⟨g1, g2, g3, g4⟩ := poolGet_clean w h
  constructor
  · intro a ha
    rw [hpool] at ha
    rw [hnext]
    rcases List.mem_cons.mp ha with ha | ha
    · rw [ha]; exact ⟨g1, hcell⟩
    · have hne : a ≠ (poolGet w).1 := fun he => g2 (he ▸ ha)
      exact ⟨(g3 a ha).1, (hother a hne).trans (g3 a ha).2⟩
  · rw [hpool]
    exact List.nodup_cons.mpr ⟨g2, g4⟩

theorem textRecord_own (c : StatelessCall) (w : World) (h : PoolClean w) :
    OwnRecord c w.appVersion (textRecord c.ctx c.msg c.level c.newV4 c.now w) ∧
    (textRecord c.ctx c.msg c.level c.newV4 c.now w).encodable = true := by
  have hempty := poolGet_cell_of_clean w h
  unfold textRecord
  rw [hempty]
  refine ⟨⟨?_, ?_, ?_, ?_, ?_, ?_⟩, ?_⟩
  · intro k
    simp only [AList.mem_insert, AList.not_mem_empty, or_false, requestIDKey,
      List.mem_cons, List.mem_singleton, List.not_mem_nil]
    tauto
  · rw [AList.lookup_insert_ne (by decide), AList.lookup_insert_ne (by decide),
      AList.lookup_insert_ne (by decide), AList.lookup_insert_ne (by decide),
      AList.lookup_insert]
  · rw [AList.lookup_insert_ne (by decide), AList.lookup_insert_ne (by decide),
      AList.lookup_insert_ne (by decide), AList.lookup_insert]
  · rw [AList.lookup_insert_ne (by decide), AList.lookup_insert_ne (by decide),
      AList.lookup_insert]
  · rw [AList.lookup_insert_ne (by decide), AList.lookup_insert]
  · exact AList.lookup_insert _
  · exact encodable_insert _ _ _ (encodable_insert _ _ _ (encodable_insert _ _ _
      (encodable_insert _ _ _ (encodable_insert _ _ _ rfl rfl) rfl) rfl) rfl) rfl

/-- C20: from a world whose pool holds only emptied instances (as after `init`), any
sequence of stateless calls returns and ends with a pool that again holds only emptied
instances, whether the calls emitted or dropped their record; every record the sequence
wrote belongs to one of its calls and carries exactly the keys severity, msg, time, v and
request_id with the values of that call. -/
theorem pool_instances_clean (calls : List StatelessCall) (w : World) (h : PoolClean w) :
    ∃ w2, runStateless calls w = .ok w2 ∧ PoolClean w2 ∧
      ∃ records : List (Writer × Entries), w2.written = w.written ++ records ∧
        ∀ p ∈ records, ∃ c ∈ calls, OwnRecord c w.appVersion p.2 := by
  induction calls generalizing w with
  | nil => exact ⟨w, rfl, h, [], by simp, by simp⟩
  | cons c rest ih =>
    obtain ⟨w1, h1, hlt, hnot, hemit, _, _, _, _, hver, _⟩ :=
      textWrap_spec c.ctx c.msg c.level c.newV4 c.now w
    have hclean : PoolClean w1 := textWrap_poolClean _ _ _ _ _ w w1 h h1
    obtain ⟨w2, h2, hc2, records, hr, hown⟩ := ih w1 hclean
    obtain ⟨hrec, henc⟩ := textRecord_own c w h
    refine ⟨w2, ?_, hc2, ?_⟩
    · simp only [runStateless, h1, bind, Except.bind]
      exact h2
    · by_cases hge : resolveString c.level ≥ w.appLogLevel
      · refine ⟨(w.Destination, textRecord c.ctx c.msg c.level c.newV4 c.now w) :: records,
          ?_, ?_⟩
        · rw [hr, hemit hge henc]
          simp
        · intro p hp
          rcases List.mem_cons.mp hp with hp | hp
          · exact ⟨c, List.mem_cons_self _ _, by rw [hp]; exact hrec⟩
          · obtain ⟨c2, hc, ho⟩ := hown p hp
            exact ⟨c2, List.mem_cons_of_mem _ hc, by rw [← hver]; exact ho⟩
      · refine ⟨records, ?_, ?_⟩
        · rw [hr, hlt (not_le.mp hge)]
        · intro p hp
          obtain ⟨c2, hc, ho⟩ := hown p hp
          exact ⟨c2, List.mem_cons_of_mem _ hc, by rw [← hver]; exact ho⟩

/-- C20 from the initial world with an emitted call and a dropped one: the pool ends with
the one instance, emptied, and one record was written. -/
theorem pool_instances_clean_witness :
    ∃ w2, runStateless twoCalls init = .ok w2 ∧ PoolClean w2 ∧ w2.fieldsPool = [0] ∧
      w2.written.length = 1 := by
  obtain ⟨w2, h1, h2, _⟩ := pool_instances_clean twoCalls init poolClean_init
  have h5 : ∃ w3, runStateless twoCalls init = .ok w3 ∧ w3.fieldsPool = [0] ∧
      w3.written.length = 1 := ⟨_, rfl, rfl, rfl⟩
  obtain ⟨w3, e3, p3, l3⟩ := h5
  have h6 : w2 = w3 := Except.ok.inj (h1.symm.trans e3)
  subst h6
  exact ⟨w2, h1, h2, p3, l3⟩

/-! ## Panics: proofs -/

/-- C12, the code at failing inputs: with a nil FieldSet and the non-nil error `foop`,
`WithFields`, `WithTracing` and `InfoWithTracing` panic (assignment to entry in nil map),
and so does `Infow` on a nil FieldSet; with a value that cannot be encoded, and with a
destination whose write fails, `Infow` returns and prints the failure. -/
theorem nil_fieldset_panics :
    WithFields none [some "foop"] init = .error Panic.nilMapAssign ∧
    WithTracing Background none [some "foop"] (NewV4Result.ok "id") init =
      .error Panic.nilMapAssign ∧
    InfoWithTracing Background none [some "foop"] (NewV4Result.ok "id") "t" init =
      .error Panic.nilMapAssign ∧
    Infow none "t" init = .error Panic.nilMapAssign ∧
    (∃ w2, Infow (some 0) "t" unencodableWorld = .ok w2 ∧ w2.written = [] ∧
      w2.printed = [Diag.logging Err.jsonUnsupported]) ∧
    (∃ w2, Infow (some 0) "t" brokenSinkWorld = .ok w2 ∧
      w2.printed = [Diag.logging Err.writeFailed]) :=
  ⟨rfl, rfl, rfl, rfl, ⟨_, rfl, rfl, rfl⟩, ⟨_, rfl, rfl⟩⟩

/-! ## The severity of a call: proofs -/

theorem parseLevel_levelString (L : Level)
    (hL : L = DebugLevel ∨ L = InfoLevel ∨ L = ErrorLevel) :
    parseLevel L.String = (L, none) := by
  rcases hL with rfl | rfl | rfl <;> decide

theorem gateLevel_of_severity (f : Fields) (w : World) (L : Level)
    (hL : L = DebugLevel ∨ L = InfoLevel ∨ L = ErrorLevel)
    (hs : mapIndex w f "severity" = some (Value.str L.String)) :
    gateLevel f w = (L, w) := by
  unfold gateLevel Fields.checkSeverityLevel
  rw [hs]
  simp only [parseLevel_levelString L hL]

theorem fire_cases (f : Fields) (w : World) :
    ((Fields.fire f w).written = w.written ++ [(w.Destination, contents w f)] ∧
      ((Fields.fire f w).printed = w.printed ∨
        (Fields.fire f w).printed = w.printed ++ [Diag.logging Err.writeFailed])) ∨
    ((Fields.fire f w).written = w.written ∧
      (Fields.fire f w).printed = w.printed ++ [Diag.logging Err.jsonUnsupported]) := by
  unfold Fields.fire
  simp only []
  split_ifs
  · exact Or.inl ⟨rfl, Or.inr rfl⟩
  · exact Or.inl ⟨rfl, Or.inl rfl⟩
  · exact Or.inr ⟨rfl, rfl⟩

theorem decidedBy_congr {L : Level} {w w1 w2 : World} (h1 : w1.written = w.written)
    (h2 : w1.printed = w.printed) (h3 : w1.appLogLevel = w.appLogLevel)
    (h4 : w1.Destination = w.Destination) (h : DecidedBy L w1 w2) : DecidedBy L w w2 := by
  unfold DecidedBy at h ⊢
  rw [h1, h2, h3, h4] at h
  exact h

/-- The pipeline on a non-nil map whose severity is the name of one of the three levels:
it returns and the gate runs at that level. -/
theorem structuredWrap_decided (r : Nat) (now : String) (w : World) (L : Level)
    (hL : L = DebugLevel ∨ L = InfoLevel ∨ L = ErrorLevel)
    (hs : mapIndex w (some r) "severity" = some (Value.str L.String)) :
    ∃ w2, structuredWrap (some r) now w = .ok w2 ∧ DecidedBy L w w2 := by
  have hs2 : mapIndex (cellSet r "v" (Value.str w.appVersion)
      (cellSet r "time" (Value.str now) w)) (some r) "severity" =
      some (Value.str L.String) := by
    rw [mapIndex_cellSet_other (by decide), mapIndex_cellSet_other (by decide)]
    exact hs
  refine ⟨_, structuredWrap_some r now w, ?_⟩
  rw [gateLevel_of_severity _ _ L hL hs2]
  simp only []
  constructor
  · intro hlt
    rw [if_neg (not_le.mpr hlt)]
    exact ⟨rfl, rfl⟩
  · intro hge
    rw [if_pos hge]
    rcases fire_cases (some r) (cellSet r "v" (Value.str w.appVersion)
      (cellSet r "time" (Value.str now) w)) with ⟨hw, hp⟩ | ⟨hw, hp⟩
    · exact Or.inl ⟨_, hw, hs2, hp⟩
    · exact Or.inr ⟨hw, hp⟩

theorem resetLoop_printed (f : Fields) (ks : List String) (w : World) :
    (resetLoop f ks w).printed = w.printed := by
  induction ks generalizing w with
  | nil => rfl
  | cons k rest ih =>
    simp only [resetLoop]
    rw [ih]
    cases f <;> rfl

theorem poolPut_reset (r : Nat) (f : Fields) (w : World) :
    (poolPut r (Fields.resetWrapper f w)).written = w.written ∧
    (poolPut r (Fields.resetWrapper f w)).printed = w.printed := by
  constructor
  · exact resetLoop_written f _ w
  · exact resetLoop_printed f _ w

theorem poolGet_printed (w : World) : (poolGet w).2.printed = w.printed := by
  unfold poolGet; split <;> rfl

/-- A stateless call whose severity string is the name of one of the three levels: it
returns and the gate runs at that level. -/
theorem textWrap_decided (ctx : Context) (msg : String) (L : Level)
    (hL : L = DebugLevel ∨ L = InfoLevel ∨ L = ErrorLevel) (newV4 : NewV4Result)
    (now : String) (w : World) :
    ∃ w2, textWrap ctx msg L.String newV4 now w = .ok w2 ∧ DecidedBy L w w2 := by
  have hs : mapIndex
      (cellSet (poolGet w).1 requestIDKey (Value.str (FromContext ctx newV4).2)
        (cellSet (poolGet w).1 "v" (Value.str (poolGet w).2.appVersion)
          (cellSet (poolGet w).1 "time" (Value.str now)
            (cellSet (poolGet w).1 "msg" (Value.str msg)
              (cellSet (poolGet w).1 "severity" (Value.str L.String) (poolGet w).2)))))
      (some (poolGet w).1) "severity" = some (Value.str L.String) := by
    rw [mapIndex_cellSet_other (by decide), mapIndex_cellSet_other (by decide),
      mapIndex_cellSet_other (by decide), mapIndex_cellSet_other (by decide),
      mapIndex_cellSet_same]
  refine ⟨_, textWrap_eq ctx msg L.String newV4 now w, ?_⟩
  rw [gateLevel_of_severity _ _ L hL hs]
  simp only []
  apply decidedBy_congr (poolGet_written w) (poolGet_printed w) (poolGet_appLogLevel w)
    (poolGet_Destination w)
  constructor
  · intro hlt
    rw [if_neg (not_le.mpr hlt)]
    obtain ⟨p1, p2⟩ := poolPut_reset (poolGet w).1 (some (poolGet w).1)
      (cellSet (poolGet w).1 requestIDKey (Value.str (FromContext ctx newV4).2)
        (cellSet (poolGet w).1 "v" (Value.str (poolGet w).2.appVersion)
          (cellSet (poolGet w).1 "time" (Value.str now)
            (cellSet (poolGet w).1 "msg" (Value.str msg)
              (cellSet (poolGet w).1 "severity" (Value.str L.String) (poolGet w).2)))))
    exact ⟨p1, p2⟩
  · intro hge
    rw [if_pos hge]
    obtain ⟨p1, p2⟩ := poolPut_reset (poolGet w).1 (some (poolGet w).1)
      (Fields.fire (some (poolGet w).1)
        (cellSet (poolGet w).1 requestIDKey (Value.str (FromContext ctx newV4).2)
          (cellSet (poolGet w).1 "v" (Value.str (poolGet w).2.appVersion)
            (cellSet (poolGet w).1 "time" (Value.str now)
              (cellSet (poolGet w).1 "msg" (Value.str msg)
                (cellSet (poolGet w).1 "severity" (Value.str L.String)
                  (poolGet w).2))))))
    rw [p1, p2]
    rcases fire_cases (some (poolGet w).1)
      (cellSet (poolGet w).1 requestIDKey (Value.str (FromContext ctx newV4).2)
        (cellSet (poolGet w).1 "v" (Value.str (poolGet w).2.appVersion)
          (cellSet (poolGet w).1 "time" (Value.str now)
            (cellSet (poolGet w).1 "msg" (Value.str msg)
              (cellSet (poolGet w).1 "severity" (Value.str L.String) (poolGet w).2)))))
      with ⟨hw, hp⟩ | ⟨hw, hp⟩
    · exact Or.inl ⟨_, hw, hs, hp⟩
    · exact Or.inr ⟨hw, hp⟩

theorem copyLoop_printed (dst : Nat) (es : List (Sigma fun _ : String => Value))
    (w : World) : (copyLoop dst es w).printed = w.printed := by
  induction es generalizing w with
  | nil => rfl
  | cons e rest ih =>
    obtain ⟨k, v⟩ := e
    simp only [copyLoop]
    exact ih _

theorem addErrors_some_frame (r : Nat) (errors : List (Option String)) (w : World) :
    ∃ w1, addErrors (some r) errors w = .ok w1 ∧ w1.written = w.written ∧
      w1.printed = w.printed ∧ w1.appLogLevel = w.appLogLevel ∧
      w1.Destination = w.Destination ∧ w1.next = w.next ∧ w1.appVersion = w.appVersion ∧
      w1.cell = (if errors.filterMap id = [] then w
        else cellSet r "Error"
          (Value.str (String.intercalate ", " (errors.filterMap id))) w).cell := by
  by_cases he : errors.filterMap id = []
  · exact ⟨w, addErrors_of_none _ errors w he, rfl, rfl, rfl, rfl, rfl, rfl, by rw [if_pos he]⟩
  · exact ⟨_, addErrors_of_some r errors w he, rfl, rfl, rfl, rfl, rfl, rfl,
      by rw [if_neg he]⟩

theorem assignLoop_none (es : List (Sigma fun _ : String => Value)) (w : World)
    (h : es ≠ []) : assignLoop none es w = .error Panic.nilMapAssign := by
  cases es with
  | nil => exact absurd rfl h
  | cons e rest =>
    obtain ⟨k, v⟩ := e
    rfl

theorem logw_none (level : Level) (details : Fields) (now : String) (w : World) :
    Fields.logw level none details now w = .error Panic.nilMapAssign := by
  unfold Fields.logw
  cases h : (contents w details).entries with
  | nil => rfl
  | cons e rest =>
    rw [assignLoop_none _ _ (by simp)]
    rfl

theorem logMapWithTracing_none (level : Level) (ctx : Context)
    (errors : List (Option String)) (newV4 : NewV4Result) (now : String) (w : World) :
    logMapWithTracing level ctx none errors newV4 now w = .error Panic.nilMapAssign := by
  unfold logMapWithTracing
  by_cases he : errors.filterMap id = []
  · rw [addErrors_of_none _ errors w he]
    rfl
  · have h1 : errors ≠ [] := by
      rintro rfl; simp at he
    have h2 : 0 < errors.length := List.length_pos.mpr h1
    have h3 : 0 < (errors.filterMap id).length := List.length_pos.mpr he
    simp [addErrors, errStringsLoop_eq, h2, h3, mapAssign, bind, Except.bind]

/-- C21: for each of the levels Debug, Info and Error and every payload, each public
terminal call at that level (the Fields methods with a message, a format or details, the
free `w` and `WithTracing` functions, the stateless functions with values or a format) on a
non-nil map returns with the gate run at that level: below the threshold nothing is written
or printed, otherwise the record written carries the lower-case name of the level as
severity, or it could not be encoded and only that is printed; the diagnostic of the
severity check is never printed. On a nil map the call panics at an assignment, before the
severity check. -/
theorem entry_point_decides_severity (level : Level)
    (hL : level = DebugLevel ∨ level = InfoLevel ∨ level = ErrorLevel) (rf : Nat)
    (details : Fields) (ctx : Context) (errors : List (Option String))
    (msg format now : String) (Sprint : Value → String)
    (Sprintf : String → List Value → String) (v : List Value) (newV4 : NewV4Result)
    (w : World) :
    (∃ w2, Fields.logMsg level (some rf) msg now w = .ok w2 ∧ DecidedBy level w w2) ∧
    (∃ w2, Fields.logf Sprintf level (some rf) format v now w = .ok w2 ∧
      DecidedBy level w w2) ∧
    (∃ w2, Fields.logw level (some rf) details now w = .ok w2 ∧ DecidedBy level w w2) ∧
    (∃ w2, logMap level (some rf) now w = .ok w2 ∧ DecidedBy level w w2) ∧
    (∃ w2, logMapWithTracing level ctx (some rf) errors newV4 now w = .ok w2 ∧
      DecidedBy level w w2) ∧
    (∃ w2, logText Sprint level v newV4 now w = .ok w2 ∧ DecidedBy level w w2) ∧
    (∃ w2, logTextft Sprintf level ctx format v newV4 now w = .ok w2 ∧
      DecidedBy level w w2) ∧
    (Fields.logMsg level none msg now w = .error Panic.nilMapAssign ∧
      Fields.logf Sprintf level none format v now w = .error Panic.nilMapAssign ∧
      Fields.logw level none details now w = .error Panic.nilMapAssign ∧
      logMap level none now w = .error Panic.nilMapAssign ∧
      logMapWithTracing level ctx none errors newV4 now w = .error Panic.nilMapAssign) := by
  have hmsg : ∀ m : String, ∃ w2, Fields.logMsg level (some rf) m now w = .ok w2 ∧
      DecidedBy level w w2 := by
    intro m
    obtain ⟨w2, h1, h2⟩ := structuredWrap_decided rf now
      (cellSet rf "msg" (Value.str m) (cellSet rf "severity" (Value.str level.String) w))
      level hL (by rw [mapIndex_cellSet_other (by decide), mapIndex_cellSet_same])
    exact ⟨w2, (logMsg_some level rf m now w).trans h1,
      decidedBy_congr rfl rfl rfl rfl h2⟩
  refine ⟨hmsg msg, hmsg (Sprintf format v), ?_, ?_, ?_, ?_, ?_, ?_⟩
  · obtain ⟨c1, c2, c3, _, _, _⟩ := copyLoop_frame rf (contents w details).entries w
    obtain ⟨w2, h1, h2⟩ := structuredWrap_decided rf now
      (cellSet rf "severity" (Value.str level.String)
        (copyLoop rf (contents w details).entries w))
      level hL (mapIndex_cellSet_same _ _ _ _)
    exact ⟨w2, (logw_some level rf details now w).trans h1,
      decidedBy_congr c1 (copyLoop_printed _ _ _) c2 c3 h2⟩
  · obtain ⟨w2, h1, h2⟩ := structuredWrap_decided rf now
      (cellSet rf "severity" (Value.str level.String) w)
      level hL (mapIndex_cellSet_same _ _ _ _)
    exact ⟨w2, h1, decidedBy_congr rfl rfl rfl rfl h2⟩
  · obtain ⟨w1, he, e1, e2, e3, e4, _⟩ := addErrors_some_frame rf errors w
    obtain ⟨w2, h1, h2⟩ := structuredWrap_decided rf now
      (cellSet rf requestIDKey (Value.str (FromContext ctx newV4).2)
        (cellSet rf "severity" (Value.str level.String) w1))
      level hL (by rw [mapIndex_cellSet_other (by decide), mapIndex_cellSet_same])
    refine ⟨w2, ?_, decidedBy_congr e1 e2 e3 e4 h2⟩
    simp only [logMapWithTracing, he, mapAssign, addTracing_some, bind, Except.bind]
    exact h1
  · simp only [logText]
    exact textWrap_decided Background _ level hL newV4 now w
  · exact textWrap_decided ctx _ level hL newV4 now w
  · exact ⟨rfl, rfl, logw_none level details now w, rfl,
      logMapWithTracing_none level ctx errors newV4 now w⟩

/-- C21 on a map whose own severity is the number 7, with the threshold Debug: `Infow` and
`Fields.Error` return with the gate run at Info and at Error. -/
theorem entry_point_decides_severity_witness :
    (∃ w2, Infow (some 0) "t" numberSeverityWorld = .ok w2 ∧
      DecidedBy InfoLevel numberSeverityWorld w2) ∧
    (∃ w2, Fields.Error (some 0) "m" "t" numberSeverityWorld = .ok w2 ∧
      DecidedBy ErrorLevel numberSeverityWorld w2) :=
  ⟨(entry_point_decides_severity InfoLevel (Or.inr (Or.inl rfl)) 0 none Background []
      "m" "f" "t" (fun _ => "") (fun f _ => f) [] (NewV4Result.ok "id")
      numberSeverityWorld).2.2.2.1,
   (entry_point_decides_severity ErrorLevel (Or.inr (Or.inr rfl)) 0 none Background []
      "m" "f" "t" (fun _ => "") (fun f _ => f) [] (NewV4Result.ok "id")
      numberSeverityWorld).1⟩

/-! ## The free map functions and the caller's map: proofs -/

/-- What a free `w` function does to the caller's non-nil map. -/
theorem logMap_own (level : Level) (r : Nat) (now : String) (w : World) :
    ∃ w2, logMap level (some r) now w = .ok w2 ∧
      OwnMapStamped level.String now w w2 r ∧
      (∀ k, k ≠ "severity" → k ≠ "time" → k ≠ "v" →
        mapIndex w2 (some r) k = mapIndex w (some r) k) := by
  obtain ⟨w2, h1, hcell, _, _, _, _, _, _, _, hnext⟩ := structuredWrap_spec r now
    (cellSet r "severity" (Value.str level.String) w)
  refine ⟨w2, h1, ⟨?_, ?_, ?_, hnext⟩, ?_⟩
  · simp only [mapIndex, contents, hcell, cellSet_cell_same]
    rw [AList.lookup_insert_ne (by decide), AList.lookup_insert_ne (by decide),
      AList.lookup_insert]
  · simp only [mapIndex, contents, hcell, cellSet_cell_same]
    rw [AList.lookup_insert_ne (by decide), AList.lookup_insert]
  · simp only [mapIndex, contents, hcell, cellSet_cell_same]
    rw [AList.lookup_insert]
    rfl
  · intro k k1 k2 k3
    simp only [mapIndex, contents, hcell, cellSet_cell_same]
    rw [AList.lookup_insert_ne k3, AList.lookup_insert_ne k2, AList.lookup_insert_ne k1]

/-- What a free `WithTracing` function does to the caller's non-nil map. -/
theorem logMapWithTracing_own (level : Level) (ctx : Context) (r : Nat)
    (errors : List (Option String)) (newV4 : NewV4Result) (now : String) (w : World) :
    ∃ w2, logMapWithTracing level ctx (some r) errors newV4 now w = .ok w2 ∧
      OwnMapStamped level.String now w w2 r ∧ OwnMapTraced ctx newV4 errors w w2 r := by
  obtain ⟨w1, he, _, _, _, _, e5, e6, e7⟩ := addErrors_some_frame r errors w
  obtain ⟨w2, h1, hcell, _, _, _, _, _, _, _, hnext⟩ := structuredWrap_spec r now
    (cellSet r requestIDKey (Value.str (FromContext ctx newV4).2)
      (cellSet r "severity" (Value.str level.String) w1))
  have hlook : ∀ k, mapIndex w2 (some r) k =
      (((((w1.cell r).insert "severity" (Value.str level.String)).insert "request_id"
        (Value.str (FromContext ctx newV4).2)).insert "time" (Value.str now)).insert "v"
          (Value.str w.appVersion)).lookup k := by
    intro k
    simp only [mapIndex, contents, hcell, cellSet_cell_same, cellSet_appVersion, e6]
    rfl
  have hw1 : ∀ k, k ≠ "Error" → (w1.cell r).lookup k = mapIndex w (some r) k := by
    intro k hk
    rw [e7]
    split
    · rfl
    · simp only [cellSet_cell_same, AList.lookup_insert_ne hk]
      rfl
  refine ⟨w2, ?_, ⟨?_, ?_, ?_, ?_⟩, ⟨?_, ?_, ?_, ?_⟩⟩
  · simp only [logMapWithTracing, he, mapAssign, addTracing_some, bind, Except.bind]
    exact h1
  · rw [hlook, AList.lookup_insert_ne (by decide), AList.lookup_insert_ne (by decide),
      AList.lookup_insert_ne (by decide), AList.lookup_insert]
  · rw [hlook, AList.lookup_insert_ne (by decide), AList.lookup_insert]
  · rw [hlook, AList.lookup_insert]
  · rw [hnext]
    exact e5
  · rw [hlook, AList.lookup_insert_ne (by decide), AList.lookup_insert_ne (by decide),
      AList.lookup_insert]
  · intro hne
    rw [hlook, AList.lookup_insert_ne (by decide), AList.lookup_insert_ne (by decide),
      AList.lookup_insert_ne (by decide), AList.lookup_insert_ne (by decide), e7,
      if_neg hne, cellSet_cell_same, AList.lookup_insert]
  · intro hnil
    rw [hlook, AList.lookup_insert_ne (by decide), AList.lookup_insert_ne (by decide),
      AList.lookup_insert_ne (by decide), AList.lookup_insert_ne (by decide), e7,
      if_pos hnil]
    rfl
  · intro k k1 k2 k3 k4 k5
    rw [hlook, AList.lookup_insert_ne k3, AList.lookup_insert_ne k2,
      AList.lookup_insert_ne k4, AList.lookup_insert_ne k1]
    exact hw1 k k5

/-- C22: for every non-nil FieldSet `f`, `Debugw(f)`, `Infow(f)` and `Errorw(f)` return and
leave in the caller's own map (no map is allocated) severity equal to the level name of the
function, time, and v equal to the version tag, every other key as it was; the three
`WithTracing` functions leave there also request_id and, when some error is non-nil, Error,
every other key as it was. Nothing of this depends on the gate. -/
theorem free_functions_use_callers_map (r : Nat) (ctx : Context)
    (errors : List (Option String)) (newV4 : NewV4Result) (now : String) (w : World) :
    (∃ w2, Debugw (some r) now w = .ok w2 ∧ OwnMapStamped "debug" now w w2 r ∧
      (∀ k, k ≠ "severity" → k ≠ "time" → k ≠ "v" →
        mapIndex w2 (some r) k = mapIndex w (some r) k)) ∧
    (∃ w2, Infow (some r) now w = .ok w2 ∧ OwnMapStamped "info" now w w2 r ∧
      (∀ k, k ≠ "severity" → k ≠ "time" → k ≠ "v" →
        mapIndex w2 (some r) k = mapIndex w (some r) k)) ∧
    (∃ w2, Errorw (some r) now w = .ok w2 ∧ OwnMapStamped "error" now w w2 r ∧
      (∀ k, k ≠ "severity" → k ≠ "time" → k ≠ "v" →
        mapIndex w2 (some r) k = mapIndex w (some r) k)) ∧
    (∃ w2, DebugWithTracing ctx (some r) errors newV4 now w = .ok w2 ∧
      OwnMapStamped "debug" now w w2 r ∧ OwnMapTraced ctx newV4 errors w w2 r) ∧
    (∃ w2, InfoWithTracing ctx (some r) errors newV4 now w = .ok w2 ∧
      OwnMapStamped "info" now w w2 r ∧ OwnMapTraced ctx newV4 errors w w2 r) ∧
    (∃ w2, ErrorWithTracing ctx (some r) errors newV4 now w = .ok w2 ∧
      OwnMapStamped "error" now w w2 r ∧ OwnMapTraced ctx newV4 errors w w2 r) :=
  ⟨logMap_own DebugLevel r now w, logMap_own InfoLevel r now w,
    logMap_own ErrorLevel r now w,
    logMapWithTracing_own DebugLevel ctx r errors newV4 now w,
    logMapWithTracing_own InfoLevel ctx r errors newV4 now w,
    logMapWithTracing_own ErrorLevel ctx r errors newV4 now w⟩

/-- C22 on the map `"Test": "Foo"` with the threshold Info: `Debugw`, whose record is
dropped, leaves severity "debug" and Test in the caller's map; `InfoWithTracing` with the
errors `[nil, foop]` leaves Error "foop" and the request id there. -/
theorem free_functions_use_callers_map_witness :
    (∃ w2, Debugw (some 0) "t" exampleWorld = .ok w2 ∧ w2.written = [] ∧
      mapIndex w2 (some 0) "severity" = some (Value.str "debug") ∧
      mapIndex w2 (some 0) "Test" = some (Value.str "Foo")) ∧
    (∃ w2, InfoWithTracing fakeIDContext (some 0) [none, some "foop"]
        (NewV4Result.ok "fresh") "t" exampleWorld = .ok w2 ∧
      mapIndex w2 (some 0) "Error" = some (Value.str "foop") ∧
      mapIndex w2 (some 0) "request_id" = some (Value.str "fake-request-id")) := by
  have h := free_functions_use_callers_map 0 fakeIDContext [none, some "foop"]
    (NewV4Result.ok "fresh") "t" exampleWorld
  constructor
  · obtain ⟨w2, h1, h2, h3⟩ := h.1
    have h5 : ∃ w3, Debugw (some 0) "t" exampleWorld = .ok w3 ∧ w3.written = [] :=
      ⟨_, rfl, rfl⟩
    obtain ⟨w3, e3, p3⟩ := h5
    have h6 : w2 = w3 := Except.ok.inj (h1.symm.trans e3)
    subst h6
    exact ⟨w2, h1, p3, h2.1, (h3 "Test" (by decide) (by decide) (by decide)).trans rfl⟩
  · obtain ⟨w2, h1, _, h3⟩ := h.2.2.2.2.1
    exact ⟨w2, h1, (h3.2.1 (by decide)).trans rfl, h3.1.trans rfl⟩

end Yawhg
